import Mathlib

/-!
Verification of the go-scpi-parser core (a Go SCPI instrument-side parser)
against its natural-language specification.

Shallow embedding conventions:
* Go byte strings / byte slices are modelled as `List Nat`, one entry per byte.
  All data of interest is ASCII, so `strings.ToUpper` is modelled bytewise
  (only the bytes of `'a'..'z'` change).
* Go slices with capacity (the error queue) are modelled as a list plus an
  explicit capacity, with `append` reallocation following the gc runtime's
  growth rule for small slices (the capacity doubles when exhausted).
* Fallible operations return `Option`.
* Decimal rendering (`fmt.Sprintf` with the `d` verb) acts on Go `int` values,
  which are 64 bits wide, so a digit-count fuel of 20 covers the whole domain.
* Floating-point parsing (`strconv.ParseFloat`) is not modelled; the functions
  that fall back to it take the composite float path as an explicit function
  parameter, and every theorem about them holds for all such parameters.
-/

/-- ASCII bytes of a Lean string literal (used only for concrete test inputs). -/
def bytes (s : String) : List Nat :=
  s.data.map Char.toNat

/-- Go `c >= 'a' && c <= 'z'` test used by `matchPattern` to find the short form. -/
def isLowerB (b : Nat) : Bool :=
  97 ≤ b && b ≤ 122

/-- Bytewise model of Go `strings.ToUpper` on ASCII data. -/
def upperB (b : Nat) : Nat :=
  if 97 ≤ b && b ≤ 122 then b - 32 else b

/-- `strings.ToUpper` over a byte string. -/
def toUpperB (s : List Nat) : List Nat :=
  s.map upperB

/-- `isWhitespace` (lexer.go): space or tab. -/
def isWhitespaceB (c : Nat) : Bool :=
  c = 32 || c = 9

/-- `isAlpha` (lexer.go). -/
def isAlphaB (c : Nat) : Bool :=
  (97 ≤ c && c ≤ 122) || (65 ≤ c && c ≤ 90)

/-- `isDigit` (lexer.go). -/
def isDigitB (c : Nat) : Bool :=
  48 ≤ c && c ≤ 57

/-- `isHexDigit` (lexer.go). -/
def isHexDigitB (c : Nat) : Bool :=
  isDigitB c || (97 ≤ c && c ≤ 102) || (65 ≤ c && c ≤ 70)

/-- Short-form length of a SCPI pattern keyword: index of the first lowercase
letter, or the whole length if none (the loop in `matchPattern`, parser.go). -/
def shortLen (pattern : List Nat) : Nat :=
  pattern.findIdx isLowerB

/-- Embedding of `matchPattern` (parser.go): accept only the exact short form
or the exact long form of the keyword, after uppercasing the value. -/
def matchPattern (pattern value : List Nat) : Bool :=
  if (toUpperB value).length = shortLen pattern then
    (toUpperB pattern).take (shortLen pattern) == toUpperB value
  else if (toUpperB value).length = (toUpperB pattern).length then
    toUpperB pattern == toUpperB value
  else false

/-! ### Decimal rendering and integer parsing (`fmt` / `strconv` models) -/

/-- Little-endian decimal digits of `n` (empty for 0), with a structural fuel.
Go formats `int` values, which are 64-bit, so 20 digits of fuel always
suffice; every theorem that uses this carries a matching bound. -/
def digitsRevFuel (fuel n : Nat) : List Nat :=
  match fuel, n with
  | 0, _ => []
  | _ + 1, 0 => []
  | f + 1, n => (n % 10) :: digitsRevFuel f (n / 10)

/-- ASCII decimal rendering of a natural, i.e. Go `fmt.Sprintf` with verb `d`
on a non-negative `int`. -/
def natToAscii (n : Nat) : List Nat :=
  if n = 0 then [48] else ((digitsRevFuel 20 n).reverse.map (fun d => d + 48))

/-- ASCII decimal rendering of a Go integer (sign + digits). -/
def intToAscii (v : Int) : List Nat :=
  if v < 0 then 45 :: natToAscii (-v).toNat else natToAscii v.toNat

/-- Value of a little-endian digit list. -/
def ofLE (l : List Nat) : Nat :=
  l.foldr (fun d a => d + 10 * a) 0

/-- Value of a most-significant-first ASCII digit string. -/
def valOfAscii (l : List Nat) : Nat :=
  l.foldl (fun a c => a * 10 + (c - 48)) 0

/-- Digit value of a byte under `strconv.ParseInt`'s base handling: `0-9`,
then letters (either case), rejected when at or above the base. -/
def digitValGo (base c : Nat) : Option Nat :=
  if 48 ≤ c ∧ c ≤ 57 then (if c - 48 < base then some (c - 48) else none)
  else if 97 ≤ c ∧ c ≤ 122 then (if c - 87 < base then some (c - 87) else none)
  else if 65 ≤ c ∧ c ≤ 90 then (if c - 55 < base then some (c - 55) else none)
  else none

/-- Accumulate the digits of `l` in `base`; `none` on any invalid digit. -/
def parseDigitsBase (base : Nat) (l : List Nat) : Option Nat :=
  l.foldl
    (fun acc c =>
      match acc, digitValGo base c with
      | some a, some d => some (a * base + d)
      | _, _ => none)
    (some 0)

/-- Model of Go `strconv.ParseInt(s, base, bitSize)`: optional sign, at least
one digit, all digits valid in `base`, and the value within the two's
complement range of `bitSize` bits.  Range overflow is an error (Go returns
`ErrRange`), modelled as `none`. -/
def goParseInt (base bitSize : Nat) (s : List Nat) : Option Int :=
  match s with
  | [] => none
  | c :: rest =>
    let neg := c = 45
    let digs := if c = 45 ∨ c = 43 then rest else s
    if digs = [] then none
    else
      match parseDigitsBase base digs with
      | none => none
      | some m =>
        let v : Int := if neg then -(m : Int) else (m : Int)
        if -(2 ^ (bitSize - 1) : Int) ≤ v ∧ v ≤ 2 ^ (bitSize - 1) - 1 then some v
        else none

/-! ### Tokens -/

inductive TokType where
  | Comma
  | Semicolon
  | Colon
  | Question
  | NewLine
  | HexNum
  | OctNum
  | BinNum
  | ProgramMnemonic
  | DecimalNumeric
  | DecimalNumericWithSuffix
  | SuffixProgramData
  | ArbitraryBlock
  | SingleQuoteData
  | DoubleQuoteData
  | ProgramExpression
  | CompoundProgramHeader
  | CommonProgramHeader
  | Whitespace
  | Invalid
  | Unknown
deriving Repr, DecidableEq

/-- `Token` (types.go): kind, borrowed bytes, start offset. -/
structure Token where
  type : TokType
  data : List Nat
  pos : Nat
deriving Repr, DecidableEq

/-- The zero `Token{Type: TokenUnknown}` value returned on lexer mismatch. -/
def unknownTok : Token :=
  { type := TokType.Unknown, data := [], pos := 0 }

/-! ### Lexer state and primitives (lexer.go) -/

/-- `lexState`: Go also stores `len`, always initialised to `len(buffer)`;
here it is `buffer.length`. -/
structure LexState where
  buffer : List Nat
  pos : Nat
deriving Repr, DecidableEq

def LexState.length (l : LexState) : Nat :=
  l.buffer.length

/-- `isEOS`: `pos >= len`. -/
def LexState.isEOS (l : LexState) : Bool :=
  decide (l.length ≤ l.pos)

/-- `peek`: current byte, or 0 at end of stream. -/
def LexState.peek (l : LexState) : Nat :=
  if l.isEOS then 0 else l.buffer.getD l.pos 0

/-- `advance(n)`: move forward, clamped to the buffer length. -/
def LexState.advance (l : LexState) (n : Nat) : LexState :=
  { l with pos := min (l.pos + n) l.length }

/-- The byte slice `buffer[a:b]`. -/
def LexState.slice (l : LexState) (a b : Nat) : List Nat :=
  (l.buffer.drop a).take (b - a)

/-- A Go loop of the shape `for !l.isEOS() && p(l.peek()) { l.advance(1) }`:
it consumes the maximal run of bytes satisfying `p` from the cursor. -/
def advanceWhile (p : Nat → Bool) (l : LexState) : LexState :=
  l.advance ((l.buffer.drop l.pos).takeWhile p).length

/-- `lexWhitespace`. -/
def lexWhitespace (l : LexState) : Token × Nat × LexState :=
  let start := l.pos
  let l2 := advanceWhile isWhitespaceB l
  (⟨TokType.Whitespace, l2.slice start l2.pos, start⟩, l2.pos - start, l2)

/-- `lexNewLine`: one of `\n`, `\r`, `\r\n`. -/
def lexNewLine (l : LexState) : Token × Nat × LexState :=
  let start := l.pos
  if l.peek = 10 then
    let l2 := l.advance 1
    (⟨TokType.NewLine, l2.slice start l2.pos, start⟩, 1, l2)
  else if l.peek = 13 then
    let l2 := l.advance 1
    let l3 := if l2.isEOS = false ∧ l2.peek = 10 then l2.advance 1 else l2
    (⟨TokType.NewLine, l3.slice start l3.pos, start⟩, l3.pos - start, l3)
  else
    (unknownTok, 0, l)

/-- `lexSemicolon`. -/
def lexSemicolon (l : LexState) : Token × Nat × LexState :=
  if l.peek = 59 then
    let start := l.pos
    let l2 := l.advance 1
    (⟨TokType.Semicolon, l2.slice start l2.pos, start⟩, 1, l2)
  else
    (unknownTok, 0, l)

/-- `lexComma`. -/
def lexComma (l : LexState) : Token × Nat × LexState :=
  if l.peek = 44 then
    let start := l.pos
    let l2 := l.advance 1
    (⟨TokType.Comma, l2.slice start l2.pos, start⟩, 1, l2)
  else
    (unknownTok, 0, l)

/-- `lexColon`. -/
def lexColon (l : LexState) : Token × Nat × LexState :=
  if l.peek = 58 then
    let start := l.pos
    let l2 := l.advance 1
    (⟨TokType.Colon, l2.slice start l2.pos, start⟩, 1, l2)
  else
    (unknownTok, 0, l)

/-- One node of `lexProgramHeader`'s compound loop: the alphanumeric mnemonic
run, then the optional single `#`. -/
def nodeEnd (l : LexState) : LexState :=
  let l1 := advanceWhile (fun c => isAlphaB c || isDigitB c) l
  if l1.isEOS = false ∧ l1.peek = 35 then l1.advance 1 else l1

/-- The `for { ... }` node loop inside `lexProgramHeader`: mnemonic
(alphanumerics after a leading alphabetic), optional `#`, then another node
after a `:`. -/
def headerNodes (l : LexState) : LexState :=
  if isAlphaB l.peek = false then l
  else
    if h : (nodeEnd l).isEOS = false ∧ (nodeEnd l).peek = 58 then
      headerNodes ((nodeEnd l).advance 1)
    else nodeEnd l
termination_by l.length - l.pos
decreasing_by
  have hbuf : ∀ x : LexState, (nodeEnd x).buffer = x.buffer := by
    intro x
    simp only [nodeEnd, advanceWhile, LexState.advance]
    split <;> rfl
  have hle : ∀ x : LexState, min x.pos x.buffer.length ≤ (nodeEnd x).pos := by
    intro x
    simp only [nodeEnd, advanceWhile, LexState.advance, LexState.length]
    split <;> dsimp only <;> omega
  have hbufl := hbuf l
  have hlel := hle l
  obtain ⟨h1, h2⟩ := h
  simp only [LexState.isEOS, LexState.length, decide_eq_false_iff_not, not_le, hbufl] at h1
  simp only [LexState.advance, LexState.length, hbufl]
  omega

/-- `lexProgramHeader` (lexer.go): common command `*LETTERS?` or compound
command `:NODE:NODE...?`. -/
def lexProgramHeader (l : LexState) : Token × Nat × LexState :=
  let start := l.pos
  if l.peek = 42 then
    let l1 := l.advance 1
    let l2 := advanceWhile isAlphaB l1
    let l3 := if l2.isEOS = false ∧ l2.peek = 63 then l2.advance 1 else l2
    if start + 1 < l3.pos then
      (⟨TokType.CommonProgramHeader, l3.slice start l3.pos, start⟩, l3.pos - start, l3)
    else
      (unknownTok, 0, l3)
  else
    let l1 := if l.peek = 58 then l.advance 1 else l
    let l2 := headerNodes l1
    let l3 := if l2.isEOS = false ∧ l2.peek = 63 then l2.advance 1 else l2
    if start < l3.pos then
      (⟨TokType.CompoundProgramHeader, l3.slice start l3.pos, start⟩, l3.pos - start, l3)
    else
      (unknownTok, 0, l3)

/-- `lexDecimalNumeric`: sign, digits, optional fraction, optional exponent;
resets the cursor and fails unless at least one digit was seen. -/
def lexDecimalNumeric (l : LexState) : Token × Nat × LexState :=
  let start := l.pos
  let l1 := if l.peek = 43 ∨ l.peek = 45 then l.advance 1 else l
  let l2 := advanceWhile isDigitB l1
  let hasInt := decide (l1.pos < l2.pos)
  let (hasFrac, l3) :=
    if l2.isEOS = false ∧ l2.peek = 46 then
      let la := l2.advance 1
      let lb := advanceWhile isDigitB la
      (decide (la.pos < lb.pos), lb)
    else
      (false, l2)
  let l4 :=
    if l3.isEOS = false ∧ (l3.peek = 101 ∨ l3.peek = 69) then
      let la := l3.advance 1
      let lb := if la.isEOS = false ∧ (la.peek = 43 ∨ la.peek = 45) then la.advance 1 else la
      advanceWhile isDigitB lb
    else
      l3
  if (hasInt || hasFrac) = true ∧ start < l4.pos then
    (⟨TokType.DecimalNumeric, l4.slice start l4.pos, start⟩, l4.pos - start, l4)
  else
    (unknownTok, 0, { l4 with pos := start })

/-- `lexNondecimalNumeric`: `#H`, `#Q`, `#B` forms. -/
def lexNondecimalNumeric (l : LexState) : Token × Nat × LexState :=
  let start := l.pos
  if l.peek ≠ 35 then (unknownTok, 0, l)
  else
    let l1 := l.advance 1
    if l1.isEOS then (unknownTok, 0, { l1 with pos := start })
    else
      let base := l1.peek
      let cont :=
        if base = 72 ∨ base = 104 then
          some (TokType.HexNum, advanceWhile isHexDigitB (l1.advance 1))
        else if base = 81 ∨ base = 113 then
          some (TokType.OctNum, advanceWhile (fun c => 48 ≤ c && c ≤ 55) (l1.advance 1))
        else if base = 66 ∨ base = 98 then
          some (TokType.BinNum, advanceWhile (fun c => c = 48 || c = 49) (l1.advance 1))
        else none
      match cont with
      | none => (unknownTok, 0, { l1 with pos := start })
      | some (tt, l2) =>
        if start + 2 < l2.pos then
          (⟨tt, l2.slice start l2.pos, start⟩, l2.pos - start, l2)
        else
          (unknownTok, 0, { l2 with pos := start })

/-- `lexCharacterProgramData`: alpha then alphanumerics and underscores. -/
def lexCharacterProgramData (l : LexState) : Token × Nat × LexState :=
  let start := l.pos
  if isAlphaB l.peek = false then (unknownTok, 0, l)
  else
    let l1 := advanceWhile (fun c => isAlphaB c || isDigitB c || c = 95) l
    if start < l1.pos then
      (⟨TokType.ProgramMnemonic, l1.slice start l1.pos, start⟩, l1.pos - start, l1)
    else
      (unknownTok, 0, l1)

/-- `lexSuffixProgramData`: one or more alphabetic bytes. -/
def lexSuffixProgramData (l : LexState) : Token × Nat × LexState :=
  let start := l.pos
  if isAlphaB l.peek = false then (unknownTok, 0, l)
  else
    let l1 := advanceWhile isAlphaB l
    if start < l1.pos then
      (⟨TokType.SuffixProgramData, l1.slice start l1.pos, start⟩, l1.pos - start, l1)
    else
      (unknownTok, 0, l1)

/-- The scan loop of `lexStringProgramData` after the opening delimiter:
a doubled delimiter stays inside the string; `none` when unterminated. -/
def scanQuoted (q : Nat) (l : LexState) : Option LexState :=
  if h : l.isEOS then none
  else
    let c := l.peek
    let l1 := l.advance 1
    if c = q then
      if h2 : l1.isEOS = false ∧ l1.peek = q then scanQuoted q (l1.advance 1) else some l1
    else
      scanQuoted q l1
termination_by l.length - l.pos
decreasing_by
  all_goals
    simp only [LexState.isEOS, LexState.length, LexState.advance,
      decide_eq_false_iff_not, decide_eq_true_eq, not_le] at *
  all_goals omega

/-- `lexStringProgramData`: single- or double-quoted, doubled-quote escape. -/
def lexStringProgramData (l : LexState) : Token × Nat × LexState :=
  let start := l.pos
  let quote := l.peek
  if quote ≠ 34 ∧ quote ≠ 39 then (unknownTok, 0, l)
  else
    let tt := if quote = 39 then TokType.SingleQuoteData else TokType.DoubleQuoteData
    match scanQuoted quote (l.advance 1) with
    | some l2 => (⟨tt, l2.slice start l2.pos, start⟩, l2.pos - start, l2)
    | none => (unknownTok, 0, { l with pos := start })

/-- The digit loop of `lexArbitraryBlock`: read at most `k` length digits. -/
def readLenDigits (k acc : Nat) (l : LexState) : Nat × LexState :=
  match k with
  | 0 => (acc, l)
  | k + 1 =>
    if l.isEOS = false ∧ isDigitB l.peek then
      readLenDigits k (acc * 10 + (l.peek - 48)) (l.advance 1)
    else
      (acc, l)

/-- `lexArbitraryBlock`: `#<n><length><data>` definite form, `#0...` indefinite
form (up to the next newline). -/
def lexArbitraryBlock (l : LexState) : Token × Nat × LexState :=
  let start := l.pos
  if l.peek ≠ 35 then (unknownTok, 0, l)
  else
    let l1 := l.advance 1
    if l1.isEOS ∨ isDigitB l1.peek = false then (unknownTok, 0, { l1 with pos := start })
    else
      let lengthDigits := l1.peek - 48
      let l2 := l1.advance 1
      if lengthDigits = 0 then
        let l3 := advanceWhile (fun c => !(c = 10 || c = 13)) l2
        (⟨TokType.ArbitraryBlock, l3.slice start l3.pos, start⟩, l3.pos - start, l3)
      else
        let (len, l3) := readLenDigits lengthDigits 0 l2
        if l3.pos + len ≤ l.length then
          let l4 := l3.advance len
          (⟨TokType.ArbitraryBlock, l4.slice start l4.pos, start⟩, l4.pos - start, l4)
        else
          (unknownTok, 0, { l3 with pos := start })

/-- The scan loop of `lexProgramExpression`: balanced parentheses, arbitrary
bytes inside; `none` when unterminated. -/
def scanExpr (depth : Int) (l : LexState) : Option LexState :=
  if h : l.isEOS then none
  else
    let c := l.peek
    let l1 := l.advance 1
    if c = 40 then scanExpr (depth + 1) l1
    else if c = 41 then
      if depth - 1 = 0 then some l1 else scanExpr (depth - 1) l1
    else
      scanExpr depth l1
termination_by l.length - l.pos
decreasing_by
  all_goals
    simp only [LexState.isEOS, LexState.length, LexState.advance,
      decide_eq_false_iff_not, decide_eq_true_eq, not_le] at *
  all_goals omega

/-- `lexProgramExpression`. -/
def lexProgramExpression (l : LexState) : Token × Nat × LexState :=
  let start := l.pos
  if l.peek ≠ 40 then (unknownTok, 0, l)
  else
    match scanExpr 0 l with
    | some l2 => (⟨TokType.ProgramExpression, l2.slice start l2.pos, start⟩, l2.pos - start, l2)
    | none => (unknownTok, 0, { l with pos := start })

/-! ### Parameter lexing and conversion (params.go) -/

/-- `Parameter` is an alias for `Token` (types.go). -/
def Parameter := Token

/-- `parseProgramData` (params.go): try the token alternatives in order and
return the first that matches, with the decimal + suffix extension rule. -/
def parseProgramData (l : LexState) : Token × LexState :=
  let (ntok, nlen, l1) := lexNondecimalNumeric l
  if 0 < nlen then (ntok, l1)
  else
    let (ctok, clen, l2) := lexCharacterProgramData l1
    if 0 < clen then (ctok, l2)
    else
      let (dtok, dlen, l3) := lexDecimalNumeric l2
      if 0 < dlen then
        let wsStart := l3.pos
        let (_, _, l4) := lexWhitespace l3
        let (_, slen, l5) := lexSuffixProgramData l4
        if 0 < slen then
          ({ type := TokType.DecimalNumericWithSuffix,
             data := l5.slice dtok.pos l5.pos,
             pos := dtok.pos }, l5)
        else
          (dtok, { l5 with pos := wsStart })
      else
        let (stok, slen2, l6) := lexStringProgramData l3
        if 0 < slen2 then (stok, l6)
        else
          let (atok, alen, l7) := lexArbitraryBlock l6
          if 0 < alen then (atok, l7)
          else
            let (etok, elen, l8) := lexProgramExpression l7
            if 0 < elen then (etok, l8)
            else (unknownTok, l8)

/-- The suffix-trim loop in `paramToInt32` / `paramToInt64` / `paramToFloat64`:
cut the string at its first ASCII letter. -/
def trimAlphaSuffix (s : List Nat) : List Nat :=
  s.takeWhile (fun c => !isAlphaB c)

/-- Bytes treated as space by `strings.TrimSpace` (ASCII portion of
`unicode.IsSpace`). -/
def isSpaceGo (c : Nat) : Bool :=
  c = 32 || c = 9 || c = 10 || c = 13 || c = 11 || c = 12

/-- Model of Go `strings.TrimSpace` on ASCII data. -/
def trimSpaceGo (s : List Nat) : List Nat :=
  ((s.dropWhile isSpaceGo).reverse.dropWhile isSpaceGo).reverse

/-- `paramToInt32` (params.go).  Hex/octal/binary parse in their base after the
two-byte prefix; decimal tokens are trimmed of any alphabetic suffix and
whitespace, then parsed directly as an integer when they contain none of
`.`, `e`, `E`.  Otherwise the code calls `strconv.ParseFloat` and truncates
to `int32`; floating point is not modelled, so that composite path is the
explicit parameter `floatTrunc`. -/
def paramToInt32 (floatTrunc : List Nat → Option Int) (p : Token) : Option Int :=
  match p.type with
  | TokType.HexNum => goParseInt 16 32 (p.data.drop 2)
  | TokType.OctNum => goParseInt 8 32 (p.data.drop 2)
  | TokType.BinNum => goParseInt 2 32 (p.data.drop 2)
  | TokType.DecimalNumeric | TokType.DecimalNumericWithSuffix =>
    let numStr :=
      if p.type = TokType.DecimalNumericWithSuffix then trimAlphaSuffix p.data else p.data
    let numStr := trimSpaceGo numStr
    if numStr.contains 46 = false ∧ numStr.contains 101 = false ∧ numStr.contains 69 = false then
      goParseInt 10 32 numStr
    else
      floatTrunc numStr
  | _ => none

/-- `paramToInt64` (params.go), same structure at 64 bits. -/
def paramToInt64 (floatTrunc : List Nat → Option Int) (p : Token) : Option Int :=
  match p.type with
  | TokType.HexNum => goParseInt 16 64 (p.data.drop 2)
  | TokType.OctNum => goParseInt 8 64 (p.data.drop 2)
  | TokType.BinNum => goParseInt 2 64 (p.data.drop 2)
  | TokType.DecimalNumeric | TokType.DecimalNumericWithSuffix =>
    let numStr :=
      if p.type = TokType.DecimalNumericWithSuffix then trimAlphaSuffix p.data else p.data
    let numStr := trimSpaceGo numStr
    if numStr.contains 46 = false ∧ numStr.contains 101 = false ∧ numStr.contains 69 = false then
      goParseInt 10 64 numStr
    else
      floatTrunc numStr
  | _ => none

/-- The first `ParamInt32` extraction on a fresh parameter span: lex one
program-data token from the span and convert it (`Parameter` with
`inputCount == 0` skips the comma handling, then `paramToInt32`).  A span
that is empty after whitespace yields 0 for a non-mandatory parameter; the
conversion of an `Unknown` token is an error. -/
def paramInt32First (floatTrunc : List Nat → Option Int) (span : List Nat) : Option Int :=
  let (_, _, l1) := lexWhitespace ⟨span, 0⟩
  if l1.isEOS then some 0
  else
    let (tok, _) := parseProgramData l1
    paramToInt32 floatTrunc tok

/-- The byte-payload extraction of `ParamArbitraryBlock` (params.go), given
the token bytes: `#<n><length><data>`, skip the `2 + n` header bytes (or all
of `#0` for the indefinite form).  `data[1] - '0'` is Go byte arithmetic,
hence the wrap-around at 256. -/
def paramArbExtract (data : List Nat) : Option (List Nat) :=
  if data.length < 2 ∨ data.headD 0 ≠ 35 then none
  else
    let n := (data.getD 1 0 + 256 - 48) % 256
    if n = 0 then some (data.drop 2)
    else if data.length < 2 + n then none
    else some (data.drop (2 + n))

/-- The bytes `ResultArbitraryBlock` (parser.go) writes for a block (after the
comma delimiter, which is not part of the block): `#<n><length><data>` with
`n` the decimal digit count of `<length>`. -/
def formatArbBlock (data : List Nat) : List Nat :=
  35 :: natToAscii (natToAscii data.length).length ++ natToAscii data.length ++ data

/-- The composite of C5: format a payload as an arbitrary block, lex it back
as an arbitrary-block token, extract the payload. -/
def arbRoundTrip (data : List Nat) : Option (List Nat) :=
  paramArbExtract (lexArbitraryBlock ⟨formatArbBlock data, 0⟩).1.data

/-! ### Command matching and dispatch (parser.go) -/

/-- Go `strings.TrimSuffix(s, "?")`: drop one trailing question mark. -/
def trimSuffixQ (s : List Nat) : List Nat :=
  if s.getLast? = some 63 then s.dropLast else s

/-- Go `strings.Index` of a single byte (only used when the byte occurs). -/
def indexOfB (c : Nat) (s : List Nat) : Nat :=
  s.findIdx (fun b => b == c)

/-- Go `strings.Split(s, ":")` on byte strings. -/
def splitColon (s : List Nat) : List (List Nat) :=
  match s with
  | [] => [[]]
  | c :: rest =>
    let r := splitColon rest
    if c = 58 then [] :: r else (c :: r.headD []) :: r.tail

/-- Drop one leading empty segment (absolute-path handling in
`matchCommandParts`). -/
def dropLeadingEmpty (l : List (List Nat)) : List (List Nat) :=
  match l with
  | [] :: rest => rest
  | _ => l

/-- The per-segment loop of `matchCommandParts`: a `#` in the pattern segment
is removed and trailing digits are stripped from the header segment. -/
def matchParts : List (List Nat) → List (List Nat) → Bool
  | [], [] => true
  | p :: ps, h :: hs =>
    (if p.contains 35 then
        matchPattern (p.filter (fun b => !(b == 35)))
          ((h.reverse.dropWhile isDigitB).reverse)
      else
        matchPattern p h)
      && matchParts ps hs
  | _, _ => false

/-- `matchCommandParts` (parser.go). -/
def matchCommandParts (pattern header : List Nat) : Bool :=
  matchParts (dropLeadingEmpty (splitColon pattern)) (dropLeadingEmpty (splitColon header))

/-- `matchCommand` (parser.go): strip trailing `?`, try the pattern with the
bracketed optional part elided, then with the brackets removed. -/
def matchCommand (pattern header : List Nat) : Bool :=
  let p := trimSuffixQ pattern
  let h := trimSuffixQ header
  let hasBr := p.contains 91 && p.contains 93
  let pWithout :=
    if hasBr then p.take (indexOfB 91 p) ++ p.drop (indexOfB 93 p + 1) else p
  if matchCommandParts pWithout h then true
  else if hasBr then matchCommandParts (p.filter (fun b => !(b == 91 || b == 93))) h
  else false

/-- `composeCompoundCommand` (parser.go): IEEE 488.2 compound-command path
inheritance. -/
def composeCompoundCommand (prev current : List Nat) : List Nat :=
  if current = [] ∨ prev = [] then current
  else if current.headD 0 = 42 ∨ current.headD 0 = 58 then current
  else if prev.headD 0 = 42 then current
  else if prev.contains 58 then
    prev.take (prev.length - 1 - indexOfB 58 prev.reverse + 1) ++ current
  else current

/-- The previous header truncated just after its last colon, as the claim
words it (empty when there is no colon). -/
def truncAfterLastColon (s : List Nat) : List Nat :=
  if s.contains 58 then s.take (s.length - 1 - indexOfB 58 s.reverse + 1) else []

/-- The effective-header rule exactly as the specification words it: keep the
current header when it begins with `*` or `:` or the previous one began with
`*`; otherwise prepend the previous header truncated just after its last
colon. -/
def effectiveHeaderSpec (prev current : List Nat) : List Nat :=
  if current.headD 0 = 42 ∨ current.headD 0 = 58 ∨ prev.headD 0 = 42 then current
  else truncAfterLastColon prev ++ current

/-! ### The error queue as a Go slice (parser.go `ErrorPush` / `ErrorPop`) -/

/-- A Go slice: its elements and the capacity of the backing array. -/
structure GoSlice (α : Type) where
  items : List α
  capa : Nat
deriving Repr, DecidableEq

/-- The gc runtime's slice growth for the small slices used here (length far
below 256): the capacity doubles, or jumps to the needed length if larger. -/
def growCap (oldCap needed : Nat) : Nat :=
  max needed (2 * oldCap)

/-- `ErrorPush`'s queue update: `append` when length is below capacity,
otherwise `append(queue[1:], err)`.  The tail slice `queue[1:]` has capacity
`capa - 1`; appending within that capacity keeps it, otherwise the backing
array is reallocated with the grown capacity. -/
def pushQ {α : Type} (q : GoSlice α) (e : α) : GoSlice α :=
  if q.items.length < q.capa then
    { items := q.items ++ [e], capa := q.capa }
  else if q.items.length - 1 < q.capa - 1 then
    { items := q.items.drop 1 ++ [e], capa := q.capa - 1 }
  else
    { items := q.items.drop 1 ++ [e], capa := growCap (q.capa - 1) (q.items.length - 1 + 1) }

/-- `ErrorPop`'s queue update: first element (if any) and the tail slice. -/
def popQ {α : Type} (q : GoSlice α) : Option α × GoSlice α :=
  match q.items with
  | [] => (none, q)
  | e :: rest => (some e, { items := rest, capa := q.capa - 1 })

/-- Drain the queue by repeated `ErrorPop` until it reports empty. -/
def drainAux {α : Type} (fuel : Nat) (q : GoSlice α) : List α :=
  match fuel with
  | 0 => []
  | fuel + 1 =>
    match popQ q with
    | (none, _) => []
    | (some e, q2) => e :: drainAux fuel q2

def drainQ {α : Type} (q : GoSlice α) : List α :=
  drainAux q.items.length q

/-- The fresh error queue of `NewContext`: `make([]*Error, 0, 10)`. -/
def freshQ {α : Type} : GoSlice α :=
  { items := [], capa := 10 }

/-- Push a whole list in order. -/
def pushListQ {α : Type} (q : GoSlice α) (es : List α) : GoSlice α :=
  es.foldl pushQ q

/-! ### Context, handlers and the `Parse` loop (parser.go) -/

/-- What a command callback does, observably: one entry per `Result*` or
`ErrorPush` call, in order. -/
inductive HAct where
  | result (payload : List Nat)
  | errPush (code : Int)
deriving Repr, DecidableEq

/-- A command callback, modelled by its observable interaction with the
context: from the parameter span it is given, the calls it makes and whether
it returns `ResOK`.  (Go allows a nil callback; commands here always carry
one.) -/
structure Handler where
  acts : List Nat → List HAct
  ok : List Nat → Bool

/-- A registered command. -/
structure GoCommand where
  pattern : List Nat
  handler : Handler

/-- `findCommand` (parser.go): first registered command whose pattern matches. -/
def findCommand (cmds : List GoCommand) (header : List Nat) : Option GoCommand :=
  cmds.find? (fun c => matchCommand c.pattern header)

/-- The context state that the claims observe: the error queue, the codes
handed to the `OnError` callback in call order, and the output-framing
state. -/
structure GoCtx where
  errorQueue : GoSlice Int
  notified : List Int
  cmdError : Bool
  outputCount : Nat
  firstOutput : Bool
deriving Repr, DecidableEq

/-- `ErrorPush` (parser.go): queue update, command-error flag, `OnError`
notification. -/
def errorPushCtx (c : GoCtx) (code : Int) : GoCtx :=
  { c with
    errorQueue := pushQ c.errorQueue code
    cmdError := true
    notified := c.notified ++ [code] }

/-- One output-sink event: a data write or the end-of-response newline write
(`writeNewLine`, which also flushes). -/
inductive OutEvent where
  | chunk (data : List Nat)
  | newline
deriving Repr, DecidableEq

/-- A handler invocation as recorded by the dispatcher: the effective header
and the parameter span installed in the context. -/
structure Invocation where
  header : List Nat
  params : List Nat
deriving Repr, DecidableEq

/-- The running state of one `Parse` call: context, output events so far,
handler invocations so far. -/
structure PRun where
  ctx : GoCtx
  trace : List OutEvent
  calls : List Invocation

/-- A `Result*` call: `writeDelimiter` (comma when `outputCount > 0`), the
formatted payload, then `outputCount++` and `firstOutput = false`. -/
def resultEmit (r : PRun) (payload : List Nat) : PRun :=
  let r1 := if 0 < r.ctx.outputCount then { r with trace := r.trace ++ [OutEvent.chunk [44]] } else r
  { r1 with
    trace := r1.trace ++ [OutEvent.chunk payload]
    ctx := { r1.ctx with outputCount := r1.ctx.outputCount + 1, firstOutput := false } }

/-- Replay a handler's calls against the context. -/
def runActs (r : PRun) (acts : List HAct) : PRun :=
  acts.foldl
    (fun r a =>
      match a with
      | HAct.result p => resultEmit r p
      | HAct.errPush code => { r with ctx := errorPushCtx r.ctx code })
    r

/-- How a `Parse` call ends: cleanly, or with one of its two error returns.
`fuelExhausted` is an artefact of the fuel encoding of the loop; with the
fuel `Parse` supplies (one more than the buffer length, while every
iteration consumes at least one byte) it does not occur. -/
inductive ParseErr where
  | invalidCommand
  | undefinedHeader
  | fuelExhausted
deriving Repr, DecidableEq

/-- The parameter-span scan before a callback runs (parser.go `Parse`,
inside the loop): skip whitespace, remember `paramStart`, advance to the
first `;`, `\n` or `\r`, and install `data[paramStart:paramEnd]`. -/
def dispatchParams (l : LexState) : List Nat × LexState :=
  let l1 := (lexWhitespace l).2.2
  let paramStart := l1.pos
  let l2 := advanceWhile (fun c => !(c = 59 || c = 10 || c = 13)) l1
  (l2.slice paramStart l2.pos, l2)

/-- One command execution (parser.go `Parse`, inside the loop): clear
`cmdError`, record the invocation, replay the callback's calls, and push
`-200` when the callback failed without pushing its own error. -/
def execCmd (r : PRun) (headerStr params : List Nat) (cmd : GoCommand) : PRun :=
  let r1 := { r with ctx := { r.ctx with cmdError := false } }
  let r2 := { r1 with calls := r1.calls ++ [⟨headerStr, params⟩] }
  let r3 := runActs r2 (cmd.handler.acts params)
  if cmd.handler.ok params then r3
  else if r3.ctx.cmdError then r3
  else { r3 with ctx := errorPushCtx r3.ctx (-200) }

/-- The terminator step (parser.go `Parse`, end of the loop body): a
semicolon keeps the path context for the next command, anything else clears
it and consumes a newline if present. -/
def termStep (l : LexState) (headerStr : List Nat) : LexState × List Nat :=
  if l.isEOS then (l, ([] : List Nat))
  else
    let (stok, _, l2) := lexSemicolon l
    if stok.type = TokType.Semicolon then (l2, headerStr)
    else
      let l3 := (lexNewLine l2).2.2
      (l3, ([] : List Nat))

/-- The per-iteration output-newline write (parser.go `Parse`, last lines of
the loop body): `if !c.firstOutput { c.writeNewLine() }`. -/
def endNewline (r : PRun) : PRun :=
  if r.ctx.firstOutput then r else { r with trace := r.trace ++ [OutEvent.newline] }

/-- The command loop of `Parse` (parser.go): whitespace, bare newlines,
header, path inheritance, dispatch, parameter span, callback, terminator,
per-iteration newline write. -/
def parseLoop (cmds : List GoCommand) (fuel : Nat) (l : LexState)
    (prevHeader : List Nat) (r : PRun) : PRun × Option ParseErr :=
  match fuel with
  | 0 => (r, some ParseErr.fuelExhausted)
  | fuel + 1 =>
    if l.isEOS then (r, none)
    else
      let l := (lexWhitespace l).2.2
      if l.isEOS then (r, none)
      else if l.peek = 10 ∨ l.peek = 13 then
        parseLoop cmds fuel (lexNewLine l).2.2 [] r
      else
        let (htok, hlen, l) := lexProgramHeader l
        if hlen = 0 ∨ htok.type = TokType.Unknown then
          ({ r with ctx := errorPushCtx r.ctx (-100) }, some ParseErr.invalidCommand)
        else
          let headerStr := composeCompoundCommand prevHeader htok.data
          match findCommand cmds headerStr with
          | none => ({ r with ctx := errorPushCtx r.ctx (-113) }, some ParseErr.undefinedHeader)
          | some cmd =>
            let (params, l2) := dispatchParams l
            let r2 := execCmd r headerStr params cmd
            let (l3, prevHeader2) := termStep l2 headerStr
            parseLoop cmds fuel l3 prevHeader2 (endNewline r2)

/-- `Parse` (parser.go) on a context whose queue/notification state is `ctx0`:
reset the per-line output state and run the loop.  The fuel exceeds the
buffer length, which suffices because every iteration consumes at least one
byte. -/
def parseGo (cmds : List GoCommand) (ctx0 : GoCtx) (data : List Nat) :
    PRun × Option ParseErr :=
  parseLoop cmds (data.length + 1) ⟨data, 0⟩ []
    { ctx := { ctx0 with outputCount := 0, firstOutput := true }
      trace := []
      calls := [] }

/-! ### `Input` (parser.go) -/

/-- The line-framing state of a context: accumulated bytes (`bufferPos` is
their count) and the fixed buffer size. -/
structure InputState where
  ctx : GoCtx
  buf : List Nat
  cap : Nat

/-- An error return from `Input`: buffer overflow, or an error propagated
from `Parse`. -/
inductive InputErr where
  | overflow
  | parse (e : ParseErr)
deriving Repr, DecidableEq

/-- The per-byte loop of `Input`: overflow check, store, parse on `\n`. -/
def inputLoop (cmds : List GoCommand) (s : InputState) :
    List Nat → List OutEvent → InputState × List OutEvent × Option InputErr
  | [], acc => (s, acc, none)
  | b :: rest, acc =>
    if s.cap ≤ s.buf.length then
      ({ ctx := errorPushCtx s.ctx (-350), buf := [], cap := s.cap }, acc, some InputErr.overflow)
    else
      let s := { s with buf := s.buf ++ [b] }
      if b = 10 then
        let (pr, e) := parseGo cmds s.ctx s.buf
        let s := { ctx := pr.ctx, buf := [], cap := s.cap }
        match e with
        | some e2 => (s, acc ++ pr.trace, some (InputErr.parse e2))
        | none => inputLoop cmds s rest (acc ++ pr.trace)
      else
        inputLoop cmds s rest acc

/-- `Input` (parser.go): empty input flushes the buffer through `Parse`;
otherwise bytes are accumulated and each completed line is parsed. -/
def inputGo (cmds : List GoCommand) (s : InputState) (data : List Nat) :
    InputState × List OutEvent × Option InputErr :=
  if data = [] then
    if 0 < s.buf.length then
      let (pr, e) := parseGo cmds s.ctx s.buf
      ({ ctx := pr.ctx, buf := [], cap := s.cap }, pr.trace, e.map InputErr.parse)
    else
      (s, [], none)
  else
    inputLoop cmds s data []

/-- A fresh context from `NewContext`: empty capacity-10 error queue, empty
line buffer of the given size. -/
def freshInputState (bufSize : Nat) : InputState :=
  { ctx :=
      { errorQueue := freshQ
        notified := []
        cmdError := false
        outputCount := 0
        firstOutput := true }
    buf := []
    cap := bufSize }

/-- Number of `writeNewLine` events in an output trace. -/
def countNL : List OutEvent → Nat
  | [] => 0
  | OutEvent.newline :: t => countNL t + 1
  | OutEvent.chunk _ :: t => countNL t

/-- A query handler that echoes its parameter span as its result. -/
def hEcho : Handler := { acts := fun ps => [HAct.result ps], ok := fun _ => true }

/-- A two-command table: `A?` and `B?`, both echoing. -/
def cmdsAB : List GoCommand := [⟨bytes ("A?"), hEcho⟩, ⟨bytes ("B?"), hEcho⟩]

/-- A context fresh out of `NewContext`. -/
def freshCtx : GoCtx :=
  { errorQueue := freshQ, notified := [], cmdError := false, outputCount := 0
    firstOutput := true }

/-! ## Theorems -/

theorem shortLen_le (p : List Nat) : shortLen p ≤ p.length :=
  List.findIdx_le_length _

/-- C1: `matchPattern P V` is true iff the uppercase of `V` equals the
uppercase of `P`'s short form (the prefix of `P` before its first lowercase
letter) exactly, or the uppercase of the whole pattern `P` exactly; no other
value is accepted. -/
theorem matchPattern_accepts_iff_short_or_long (p v : List Nat) :
    matchPattern p v = true ↔
      (toUpperB v = toUpperB (p.take (shortLen p)) ∨ toUpperB v = toUpperB p) := by
  have hsl := shortLen_le p
  have hmt : toUpperB (p.take (shortLen p)) = (toUpperB p).take (shortLen p) := by
    simp [toUpperB, List.map_take]
  have hlen : (toUpperB p).length = p.length := by simp [toUpperB]
  rw [hmt]
  unfold matchPattern
  split
  next h1 =>
    simp only [beq_iff_eq]
    constructor
    · intro h; exact Or.inl h.symm
    · rintro (h | h)
      · exact h.symm
      · have hbl : (toUpperB p).length ≤ shortLen p := by
          rw [← h1, h]
        rw [List.take_of_length_le hbl, h]
  next h1 =>
    split
    next h2 =>
      simp only [beq_iff_eq]
      constructor
      · intro h; exact Or.inr h.symm
      · rintro (h | h)
        · exfalso
          apply h1
          rw [h]
          simp only [List.length_take]
          omega
        · exact h.symm
    next h2 =>
      constructor
      · intro h; exact absurd h (by decide)
      · rintro (h | h)
        · exfalso
          apply h1
          rw [h]
          simp only [List.length_take]
          omega
        · exact absurd (by rw [h]) h2

/-- C3: the error queue is not in fact bounded by its capacity of 10.  After
the 11th push the backing array is reallocated (to capacity 18), so the 12th
push appends without evicting: 12 pushes into a fresh queue leave 11 entries,
and draining returns all 11 (errors 2..12), not the last 10.  This contradicts
the eviction the code itself intends ("Queue full, remove oldest"); through
the 11th push the intended behaviour still holds. -/
theorem errorQueue_twelve_pushes_break_capacity :
    (pushListQ (freshQ : GoSlice Int) [1,2,3,4,5,6,7,8,9,10,11]).items =
        [2,3,4,5,6,7,8,9,10,11] ∧
      drainQ (pushListQ (freshQ : GoSlice Int) [1,2,3,4,5,6,7,8,9,10,11]) =
        [2,3,4,5,6,7,8,9,10,11] ∧
      (pushListQ (freshQ : GoSlice Int) [1,2,3,4,5,6,7,8,9,10,11,12]).items.length = 11 ∧
      drainQ (pushListQ (freshQ : GoSlice Int) [1,2,3,4,5,6,7,8,9,10,11,12]) =
        [2,3,4,5,6,7,8,9,10,11,12] := by
  refine ⟨by decide, by decide, by decide, by decide⟩

/-- C4: for nonempty current headers (the only ones `Parse` produces), the
effective header of `composeCompoundCommand` is exactly the rule the
specification states: the current header unchanged when it begins with `*` or
`:` or the previous header begins with `*`; otherwise the previous header
truncated just after its last `:` (empty when it has none) prepended to the
current header. -/
theorem compose_effective_header_spec (prev current : List Nat)
    (h : current ≠ []) :
    composeCompoundCommand prev current = effectiveHeaderSpec prev current := by
  unfold composeCompoundCommand effectiveHeaderSpec truncAfterLastColon
  by_cases hp : prev = []
  · subst hp
    simp only [h, or_true, if_true, List.headD_nil]
    split
    · rfl
    · norm_num
  · rw [if_neg (by simp [h, hp])]
    split_ifs <;> first
      | rfl
      | tauto

/-- Witness for C4: after `SOUR:VOLT`, the header `CURR` dispatches as
`SOUR:CURR`, and after the common command `*RST` no path is inherited. -/
theorem compose_effective_header_spec_witness :
    composeCompoundCommand (bytes ("SOUR:VOLT")) (bytes ("CURR")) =
        effectiveHeaderSpec (bytes ("SOUR:VOLT")) (bytes ("CURR")) ∧
      composeCompoundCommand (bytes ("SOUR:VOLT")) (bytes ("CURR")) = bytes ("SOUR:CURR") ∧
      composeCompoundCommand (bytes ("*RST")) (bytes ("OUTP")) = bytes ("OUTP") :=
  ⟨compose_effective_header_spec (bytes ("SOUR:VOLT")) (bytes ("CURR")) (by decide),
   by decide, by decide⟩

theorem digitsRevFuel_mem_lt (f : Nat) : ∀ n d, d ∈ digitsRevFuel f n → d < 10 := by
  induction f with
  | zero => intro n d hd; simp [digitsRevFuel] at hd
  | succ f ih =>
    intro n d hd
    match n with
    | 0 => simp [digitsRevFuel] at hd
    | n + 1 =>
      simp only [digitsRevFuel, List.mem_cons] at hd
      rcases hd with hd | hd
      · subst hd; exact Nat.mod_lt _ (by omega)
      · exact ih _ _ hd

theorem ofLE_digitsRevFuel (f : Nat) : ∀ n, n < 10 ^ f → ofLE (digitsRevFuel f n) = n := by
  induction f with
  | zero => intro n hn; interval_cases n; simp [digitsRevFuel, ofLE]
  | succ f ih =>
    intro n hn
    match n with
    | 0 => simp [digitsRevFuel, ofLE]
    | n + 1 =>
      have hdiv : (n + 1) / 10 < 10 ^ f := by
        rw [Nat.div_lt_iff_lt_mul (by omega)]
        calc n + 1 < 10 ^ (f + 1) := hn
        _ = 10 ^ f * 10 := by ring
      simp only [digitsRevFuel, ofLE, List.foldr_cons]
      have := ih _ hdiv
      simp only [ofLE] at this
      rw [this]
      omega

theorem digitsRevFuel_length_le (f : Nat) : ∀ n k, n < 10 ^ k → (digitsRevFuel f n).length ≤ k := by
  induction f with
  | zero => intro n k _; simp [digitsRevFuel]
  | succ f ih =>
    intro n k hn
    match n with
    | 0 => simp [digitsRevFuel]
    | n + 1 =>
      have hk : k ≠ 0 := by
        rintro rfl
        simp at hn
      obtain ⟨k, rfl⟩ := Nat.exists_eq_succ_of_ne_zero hk
      have hdiv : (n + 1) / 10 < 10 ^ k := by
        rw [Nat.div_lt_iff_lt_mul (by omega)]
        calc n + 1 < 10 ^ (k + 1) := hn
        _ = 10 ^ k * 10 := by ring
      simp only [digitsRevFuel, List.length_cons]
      have := ih _ _ hdiv
      omega

theorem foldr_msd_eq_ofLE (l : List Nat) : l.foldr (fun d a => a * 10 + d) 0 = ofLE l := by
  induction l with
  | nil => rfl
  | cons c rest ih => simp only [ofLE, List.foldr_cons] at *; omega

theorem valOfAscii_natToAscii (n : Nat) (hn : n < 10 ^ 20) :
    valOfAscii (natToAscii n) = n := by
  unfold natToAscii
  by_cases h0 : n = 0
  · simp [h0, valOfAscii]
  · rw [if_neg h0]
    rw [List.map_reverse]
    unfold valOfAscii
    rw [List.foldl_reverse, List.foldr_map]
    have hfun : (fun (x y : Nat) => y * 10 + (x + 48 - 48)) = fun (d a : Nat) => a * 10 + d := by
      funext x y
      omega
    show (digitsRevFuel 20 n).foldr (fun x y => y * 10 + (x + 48 - 48)) 0 = n
    rw [hfun, foldr_msd_eq_ofLE]
    exact ofLE_digitsRevFuel 20 n hn

theorem natToAscii_mem (n : Nat) : ∀ c ∈ natToAscii n, 48 ≤ c ∧ c ≤ 57 := by
  unfold natToAscii
  by_cases h0 : n = 0
  · simp [h0]
  · rw [if_neg h0]
    intro c hc
    simp only [List.mem_map, List.mem_reverse] at hc
    obtain ⟨d, hd, rfl⟩ := hc
    have := digitsRevFuel_mem_lt 20 n d hd
    omega

theorem natToAscii_ne_nil (n : Nat) : natToAscii n ≠ [] := by
  unfold natToAscii
  by_cases h0 : n = 0
  · simp [h0]
  · rw [if_neg h0]
    obtain ⟨m, rfl⟩ := Nat.exists_eq_succ_of_ne_zero h0
    simp [digitsRevFuel]

theorem natToAscii_length_le (n k : Nat) (h1 : 1 ≤ k) (hn : n < 10 ^ k) :
    (natToAscii n).length ≤ k := by
  unfold natToAscii
  by_cases h0 : n = 0
  · simp [h0]; omega
  · rw [if_neg h0]
    simp only [List.length_map, List.length_reverse]
    exact digitsRevFuel_length_le 20 n k hn

theorem natToAscii_single_digit (m : Nat) (h1 : 1 ≤ m) (h2 : m ≤ 9) :
    natToAscii m = [m + 48] := by
  interval_cases m <;> decide

theorem contains_false_of_not_mem {a : Nat} {l : List Nat} (h : a ∉ l) :
    l.contains a = false := by
  induction l with
  | nil => rfl
  | cons c rest ih =>
    simp only [List.mem_cons, not_or] at h
    simp only [List.contains_cons, Bool.or_eq_false_iff]
    refine ⟨?_, ih h.2⟩
    simpa [beq_eq_false_iff_ne] using h.1

theorem parseDigitsBase_digits (l : List Nat) (hl : ∀ c ∈ l, 48 ≤ c ∧ c ≤ 57) :
    parseDigitsBase 10 l = some (valOfAscii l) := by
  unfold parseDigitsBase valOfAscii
  suffices h : ∀ a : Nat,
      l.foldl
          (fun acc c =>
            match acc, digitValGo 10 c with
            | some a, some d => some (a * 10 + d)
            | _, _ => none)
          (some a) =
        some (l.foldl (fun a c => a * 10 + (c - 48)) a) by
    exact h 0
  induction l with
  | nil => intro a; rfl
  | cons c rest ih =>
    intro a
    have hc := hl c (by simp)
    have hdv : digitValGo 10 c = some (c - 48) := by
      unfold digitValGo
      rw [if_pos hc, if_pos (by omega)]
    simp only [List.foldl_cons, hdv]
    exact ih (fun d hd => hl d (by simp [hd])) (a * 10 + (c - 48))

theorem goParseInt_natToAscii (b n : Nat) (h20 : n < 10 ^ 20)
    (hb : (n : Int) ≤ 2 ^ (b - 1) - 1) :
    goParseInt 10 b (natToAscii n) = some ((n : Nat) : Int) := by
  have hne := natToAscii_ne_nil n
  have hmem := natToAscii_mem n
  have hval := valOfAscii_natToAscii n h20
  have hp : (0 : Int) ≤ 2 ^ (b - 1) := by positivity
  cases hna : natToAscii n with
  | nil => exact absurd hna hne
  | cons c rest =>
    have hc : 48 ≤ c ∧ c ≤ 57 := by
      apply hmem
      rw [hna]
      simp
    have hpd : parseDigitsBase 10 (c :: rest) = some (valOfAscii (c :: rest)) := by
      rw [← hna]
      apply parseDigitsBase_digits
      exact hmem
    have h45 : (c = 45) = False := eq_false (by omega)
    simp only [goParseInt]
    rw [if_neg (show ¬(c = 45 ∨ c = 43) by omega),
      if_neg (show ¬(c :: rest = []) by simp), hpd, ← hna, hval]
    simp only [h45, if_false]
    rw [if_pos (show -(2 ^ (b - 1) : Int) ≤ (n : Int) ∧ (n : Int) ≤ 2 ^ (b - 1) - 1 by
      constructor
      · have : (0 : Int) ≤ (n : Int) := Int.natCast_nonneg n
        omega
      · exact hb)]

theorem goParseInt_intToAscii (b : Nat) (v : Int) (hb : 2 ^ (b - 1) ≤ 10 ^ 19)
    (h1 : -(2 ^ (b - 1)) ≤ v) (h2 : v ≤ 2 ^ (b - 1) - 1) :
    goParseInt 10 b (intToAscii v) = some v := by
  have hcast : ((2 ^ (b - 1) : Nat) : Int) = 2 ^ (b - 1) := by push_cast; ring
  unfold intToAscii
  by_cases hv : v < 0
  · rw [if_pos hv]
    set m := (-v).toNat with hm
    have hmv : (m : Int) = -v := by
      rw [hm]
      exact Int.toNat_of_nonneg (by omega)
    have hm20 : m < 10 ^ 20 := by
      have hm2 : (m : Int) ≤ ((2 ^ (b - 1) : Nat) : Int) := by
        rw [hcast]
        omega
      have hmn : m ≤ 2 ^ (b - 1) := by exact_mod_cast hm2
      have hm19 : m ≤ 10 ^ 19 := le_trans hmn hb
      calc m ≤ 10 ^ 19 := hm19
        _ < 10 ^ 20 := by norm_num
    have hne := natToAscii_ne_nil m
    have hne' : (natToAscii m = []) = False := eq_false hne
    have hpd : parseDigitsBase 10 (natToAscii m) = some (valOfAscii (natToAscii m)) :=
      parseDigitsBase_digits _ (natToAscii_mem m)
    simp only [goParseInt, true_or, if_true]
    rw [if_neg hne, hpd, valOfAscii_natToAscii m hm20]
    dsimp only
    rw [if_pos (show -(2 ^ (b - 1) : Int) ≤ -(m : Int) ∧ -(m : Int) ≤ 2 ^ (b - 1) - 1 by
      have hp : (0 : Int) ≤ 2 ^ (b - 1) := by positivity
      constructor
      · omega
      · omega)]
    congr 1
    omega
  · rw [if_neg hv]
    have h20 : v.toNat < 10 ^ 20 := by
      have hm2 : (v.toNat : Int) ≤ ((2 ^ (b - 1) : Nat) : Int) := by
        rw [hcast]
        omega
      have hmn : v.toNat ≤ 2 ^ (b - 1) := by exact_mod_cast hm2
      have hm19 : v.toNat ≤ 10 ^ 19 := le_trans hmn hb
      calc v.toNat ≤ 10 ^ 19 := hm19
        _ < 10 ^ 20 := by norm_num
    rw [goParseInt_natToAscii b v.toNat h20 (by omega)]
    congr 1
    omega

theorem dropWhile_eq_self_of_none {p : Nat → Bool} {l : List Nat}
    (h : ∀ c ∈ l, p c = false) : l.dropWhile p = l := by
  cases l with
  | nil => rfl
  | cons c rest => simp [List.dropWhile_cons, h c (by simp)]

theorem intToAscii_mem (v : Int) : ∀ c ∈ intToAscii v, c = 45 ∨ (48 ≤ c ∧ c ≤ 57) := by
  unfold intToAscii
  split
  · intro c hc
    rcases List.mem_cons.mp hc with h | h
    · exact Or.inl h
    · exact Or.inr (natToAscii_mem _ c h)
  · intro c hc
    exact Or.inr (natToAscii_mem _ c hc)

theorem trimSpaceGo_intToAscii (v : Int) : trimSpaceGo (intToAscii v) = intToAscii v := by
  have hmem := intToAscii_mem v
  have hns : ∀ c ∈ intToAscii v, isSpaceGo c = false := by
    intro c hc
    rcases hmem c hc with h | h <;> simp [isSpaceGo] <;> omega
  unfold trimSpaceGo
  rw [dropWhile_eq_self_of_none hns,
    dropWhile_eq_self_of_none (by intro c hc; exact hns c (List.mem_reverse.mp hc)),
    List.reverse_reverse]

theorem intToAscii_contains_false (v : Int) (a : Nat) (ha : a = 46 ∨ a = 101 ∨ a = 69) :
    (intToAscii v).contains a = false := by
  apply contains_false_of_not_mem
  intro hmem
  rcases intToAscii_mem v a hmem with h | h <;> omega

theorem paramToInt32_intToAscii (fT : List Nat → Option Int) (v : Int)
    (h1 : -(2 ^ 31) ≤ v) (h2 : v ≤ 2 ^ 31 - 1) :
    paramToInt32 fT { type := TokType.DecimalNumeric, data := intToAscii v, pos := 0 } =
      some v := by
  simp only [paramToInt32]
  rw [if_neg (by decide : ¬(TokType.DecimalNumeric = TokType.DecimalNumericWithSuffix))]
  rw [trimSpaceGo_intToAscii]
  rw [if_pos ⟨intToAscii_contains_false v 46 (by omega),
    intToAscii_contains_false v 101 (by omega),
    intToAscii_contains_false v 69 (by omega)⟩]
  exact goParseInt_intToAscii 32 v (by norm_num) h1 h2

theorem paramToInt64_intToAscii (fT : List Nat → Option Int) (v : Int)
    (h1 : -(2 ^ 63) ≤ v) (h2 : v ≤ 2 ^ 63 - 1) :
    paramToInt64 fT { type := TokType.DecimalNumeric, data := intToAscii v, pos := 0 } =
      some v := by
  simp only [paramToInt64]
  rw [if_neg (by decide : ¬(TokType.DecimalNumeric = TokType.DecimalNumericWithSuffix))]
  rw [trimSpaceGo_intToAscii]
  rw [if_pos ⟨intToAscii_contains_false v 46 (by omega),
    intToAscii_contains_false v 101 (by omega),
    intToAscii_contains_false v 69 (by omega)⟩]
  exact goParseInt_intToAscii 64 v (by norm_num) h1 h2

/-- C6: on a decimal numeric token whose text (after suffix trimming) has no
`.`, `e` or `E`, the int32 and int64 extractors parse it as an integer and
never through a float: whatever the float fallback `fT` would compute, the
decimal rendering of any in-range integer converts back to exactly that
integer, and in particular `ParamInt32` on the parameter text `2147483647`
yields exactly `INT32_MAX`. -/
theorem paramInt_no_float_rounding :
    (∀ (fT : List Nat → Option Int) (v : Int), -(2 ^ 31) ≤ v → v ≤ 2 ^ 31 - 1 →
        paramToInt32 fT { type := TokType.DecimalNumeric, data := intToAscii v, pos := 0 } =
          some v) ∧
      (∀ (fT : List Nat → Option Int) (v : Int), -(2 ^ 63) ≤ v → v ≤ 2 ^ 63 - 1 →
        paramToInt64 fT { type := TokType.DecimalNumeric, data := intToAscii v, pos := 0 } =
          some v) ∧
      (∀ fT : List Nat → Option Int,
        paramInt32First fT (bytes ("2147483647")) = some 2147483647) :=
  ⟨fun fT v h1 h2 => paramToInt32_intToAscii fT v h1 h2,
   fun fT v h1 h2 => paramToInt64_intToAscii fT v h1 h2,
   fun _ => rfl⟩

/-- Witness for C6 at the extremal input: `2147483647` is returned exactly. -/
theorem paramInt_no_float_rounding_witness :
    paramToInt32 (fun _ => some 0)
        { type := TokType.DecimalNumeric, data := intToAscii 2147483647, pos := 0 } =
      some 2147483647 :=
  paramInt_no_float_rounding.1 (fun _ => some 0) 2147483647 (by decide) (by decide)

theorem isEOS_false_of_lt {buf : List Nat} {p : Nat} (h : p < buf.length) :
    (⟨buf, p⟩ : LexState).isEOS = false := by
  simp [LexState.isEOS, LexState.length]
  omega

theorem peek_of_lt {buf : List Nat} {p : Nat} (h : p < buf.length) :
    (⟨buf, p⟩ : LexState).peek = buf.getD p 0 := by
  unfold LexState.peek
  rw [isEOS_false_of_lt h]
  simp

theorem advance_of_le {buf : List Nat} {p n : Nat} (h : p + n ≤ buf.length) :
    (⟨buf, p⟩ : LexState).advance n = ⟨buf, p + n⟩ := by
  simp [LexState.advance, LexState.length]
  omega

theorem getD_append_self (pre : List Nat) (c : Nat) (rest : List Nat) :
    (pre ++ c :: rest).getD pre.length 0 = c := by
  induction pre with
  | nil => rfl
  | cons a pre ih => simpa using ih

theorem readLenDigits_append (ds : List Nat) :
    ∀ (acc : Nat) (pre post : List Nat), (∀ c ∈ ds, isDigitB c = true) →
      readLenDigits ds.length acc ⟨pre ++ ds ++ post, pre.length⟩ =
        (ds.foldl (fun a c => a * 10 + (c - 48)) acc,
          ⟨pre ++ ds ++ post, pre.length + ds.length⟩) := by
  induction ds with
  | nil => intro acc pre post _; simp [readLenDigits]
  | cons d ds ih =>
    intro acc pre post hd
    have hlt : pre.length < (pre ++ (d :: ds) ++ post).length := by simp
    have hpk : (⟨pre ++ (d :: ds) ++ post, pre.length⟩ : LexState).peek = d := by
      rw [peek_of_lt hlt, List.append_assoc, List.cons_append, getD_append_self]
    have hadv : (⟨pre ++ (d :: ds) ++ post, pre.length⟩ : LexState).advance 1 =
        ⟨pre ++ (d :: ds) ++ post, pre.length + 1⟩ :=
      advance_of_le (by simp)
    have hre : pre ++ (d :: ds) ++ post = pre ++ [d] ++ ds ++ post := by simp
    show readLenDigits (ds.length + 1) acc _ = _
    unfold readLenDigits
    rw [if_pos ⟨isEOS_false_of_lt hlt, by rw [hpk]; exact hd d (by simp)⟩, hpk, hadv]
    rw [hre]
    have hplen : pre.length + 1 = (pre ++ [d]).length := by simp
    rw [hplen, ih (acc * 10 + (d - 48)) (pre ++ [d]) post (fun c hc => hd c (by simp [hc]))]
    rw [Prod.mk.injEq]
    refine ⟨by rw [List.foldl_cons], ?_⟩
    rw [LexState.mk.injEq]
    refine ⟨rfl, ?_⟩
    simp
    omega

theorem formatArbBlock_eq (D : List Nat) (h : D.length < 10 ^ 9) :
    formatArbBlock D =
      35 :: ((natToAscii D.length).length + 48) :: (natToAscii D.length ++ D) := by
  have hne : natToAscii D.length ≠ [] := natToAscii_ne_nil _
  have hlen1 : 1 ≤ (natToAscii D.length).length := List.length_pos.mpr hne
  have hlen9 : (natToAscii D.length).length ≤ 9 := natToAscii_length_le _ 9 (by norm_num) h
  unfold formatArbBlock
  rw [natToAscii_single_digit _ hlen1 hlen9]
  simp

theorem paramArbExtract_format (D : List Nat) (h : D.length < 10 ^ 9) :
    paramArbExtract (formatArbBlock D) = some D := by
  have hlen1 : 1 ≤ (natToAscii D.length).length :=
    List.length_pos.mpr (natToAscii_ne_nil _)
  have hlen9 : (natToAscii D.length).length ≤ 9 := natToAscii_length_le _ 9 (by norm_num) h
  rw [formatArbBlock_eq D h]
  set la := natToAscii D.length with hla
  set n := la.length with hn
  unfold paramArbExtract
  rw [if_neg (by simp)]
  have hg1 : (35 :: (n + 48) :: (la ++ D)).getD 1 0 = n + 48 := by simp
  rw [hg1]
  have hmod : (n + 48 + 256 - 48) % 256 = n := by omega
  rw [hmod]
  rw [if_neg (by omega)]
  rw [if_neg (by simp; omega)]
  have hdrop : (35 :: (n + 48) :: (la ++ D)).drop (2 + n) = D := by
    have h2 : 2 + n = n + 1 + 1 := by omega
    rw [h2, List.drop_succ_cons, List.drop_succ_cons, hn, List.drop_left]
  rw [hdrop]

theorem lexArbitraryBlock_format_data (D : List Nat) (h : D.length < 10 ^ 9) :
    (lexArbitraryBlock ⟨formatArbBlock D, 0⟩).1.data = formatArbBlock D := by
  have h20 : D.length < 10 ^ 20 := lt_of_lt_of_le h (by norm_num)
  have hlen1 : 1 ≤ (natToAscii D.length).length :=
    List.length_pos.mpr (natToAscii_ne_nil _)
  have hlen9 : (natToAscii D.length).length ≤ 9 := natToAscii_length_le _ 9 (by norm_num) h
  have hdig : ∀ c ∈ natToAscii D.length, isDigitB c = true := by
    intro c hc
    have := natToAscii_mem D.length c hc
    simp [isDigitB]
    omega
  have hval : valOfAscii (natToAscii D.length) = D.length :=
    valOfAscii_natToAscii D.length h20
  rw [formatArbBlock_eq D h]
  set la := natToAscii D.length with hla
  set n := la.length with hn
  set B := 35 :: (n + 48) :: (la ++ D) with hB
  have hBlen : B.length = 2 + n + D.length := by
    rw [hB]
    simp [hn]
    omega
  have hp0 : (⟨B, 0⟩ : LexState).peek = 35 := by
    rw [peek_of_lt (by rw [hBlen]; omega), hB]
    simp
  have hadv0 : (⟨B, 0⟩ : LexState).advance 1 = ⟨B, 1⟩ :=
    advance_of_le (by rw [hBlen]; omega)
  have hp1 : (⟨B, 1⟩ : LexState).peek = n + 48 := by
    rw [peek_of_lt (by rw [hBlen]; omega), hB]
    simp
  have hadv1 : (⟨B, 1⟩ : LexState).advance 1 = ⟨B, 2⟩ :=
    advance_of_le (by rw [hBlen]; omega)
  have hEOS1 : (⟨B, 1⟩ : LexState).isEOS = false :=
    isEOS_false_of_lt (by rw [hBlen]; omega)
  simp only [lexArbitraryBlock]
  rw [if_neg (show ¬((⟨B, 0⟩ : LexState).peek ≠ 35) by rw [hp0]; simp)]
  rw [hadv0]
  rw [if_neg (show ¬((⟨B, 1⟩ : LexState).isEOS = true ∨ isDigitB (⟨B, 1⟩ : LexState).peek = false) by
    rw [hEOS1, hp1]
    simp [isDigitB]
    omega)]
  rw [hp1]
  have hsub : n + 48 - 48 = n := by omega
  rw [hsub]
  rw [if_neg (show ¬(n = 0) by omega)]
  rw [hadv1]
  have hstate2 : (⟨B, 2⟩ : LexState) =
      ⟨[35, n + 48] ++ la ++ D, ([35, n + 48] : List Nat).length⟩ := by
    rw [hB]
    simp
  rw [hstate2]
  have hread : readLenDigits n 0
      ⟨[35, n + 48] ++ la ++ D, ([35, n + 48] : List Nat).length⟩ =
      (la.foldl (fun a c => a * 10 + (c - 48)) 0,
        ⟨[35, n + 48] ++ la ++ D, ([35, n + 48] : List Nat).length + la.length⟩) :=
    readLenDigits_append la 0 [35, n + 48] D hdig
  rw [hread]
  dsimp only
  have hval' : la.foldl (fun a c => a * 10 + (c - 48)) 0 = D.length := hval
  rw [hval']
  have hl2 : ([35, n + 48] : List Nat).length = 2 := rfl
  rw [hl2]
  rw [if_pos (show 2 + la.length + D.length ≤ (⟨B, 0⟩ : LexState).length by
    simp only [LexState.length]
    omega)]
  have hand : ([35, n + 48] ++ la ++ D).length = 2 + la.length + D.length := by
    simp <;> omega
  have hadv3 : (⟨[35, n + 48] ++ la ++ D, 2 + la.length⟩ : LexState).advance D.length =
      ⟨[35, n + 48] ++ la ++ D, 2 + la.length + D.length⟩ :=
    advance_of_le (by rw [hand])
  rw [hadv3]
  dsimp only
  unfold LexState.slice
  rw [Nat.sub_zero, List.drop_zero, ← hand, List.take_length]
  rw [hB]
  simp

/-- C5 (amended): formatting a payload of fewer than 10^9 bytes as a
definite-length arbitrary block, lexing the output back as an arbitrary-block
token and extracting its payload yields exactly the original bytes. -/
theorem arb_block_roundtrip (D : List Nat) (h : D.length < 10 ^ 9) :
    arbRoundTrip D = some D := by
  unfold arbRoundTrip
  rw [lexArbitraryBlock_format_data D h, paramArbExtract_format D h]

/-- Witness for C5 on a payload holding `;`, a newline, `#` and raw bytes. -/
theorem arb_block_roundtrip_witness :
    arbRoundTrip [72, 105, 59, 10, 35, 0, 255] = some [72, 105, 59, 10, 35, 0, 255] :=
  arb_block_roundtrip [72, 105, 59, 10, 35, 0, 255] (by decide)

/-- Counterexample to C5 as stated: a payload of exactly 10^9 bytes has a
10-digit length, so the `#<n>` digit-count field is itself two digits
(`#10...`); the lexer reads `1` as the digit count and then `0` as the
length, and the extracted payload is empty instead of the original data. -/
theorem arb_block_roundtrip_fails_at_gigabyte :
    arbRoundTrip (List.replicate (10 ^ 9) 48) ≠ some (List.replicate (10 ^ 9) 48) := by
  have hla : natToAscii (10 ^ 9) = [49, 48, 48, 48, 48, 48, 48, 48, 48, 48] := by decide
  have hn10 : natToAscii (natToAscii (10 ^ 9)).length = [49, 48] := by
    rw [hla]
    decide
  have hfmt : formatArbBlock (List.replicate (10 ^ 9) 48) =
      35 :: 49 :: 48 ::
        ([49, 48, 48, 48, 48, 48, 48, 48, 48, 48] ++ List.replicate (10 ^ 9) 48) := by
    unfold formatArbBlock
    rw [List.length_replicate, hn10, hla]
    rfl
  set D0 := List.replicate (10 ^ 9) (48 : Nat) with hD0
  have hD0len : D0.length = 10 ^ 9 := by
    rw [hD0]
    exact List.length_replicate _ _
  set B := 35 :: 49 :: 48 :: ([49, 48, 48, 48, 48, 48, 48, 48, 48, 48] ++ D0) with hB
  have hBlen : B.length = 13 + 10 ^ 9 := by
    rw [hB]
    simp only [List.length_cons, List.length_nil, List.length_append, hD0len]
    omega
  have hp0 : (⟨B, 0⟩ : LexState).peek = 35 := by
    rw [peek_of_lt (by rw [hBlen]; norm_num), hB]
    rfl
  have hadv0 : (⟨B, 0⟩ : LexState).advance 1 = ⟨B, 1⟩ := by
    have h1 := advance_of_le (show 0 + 1 ≤ B.length by rw [hBlen]; norm_num)
    rw [Nat.zero_add] at h1
    exact h1
  have hp1 : (⟨B, 1⟩ : LexState).peek = 49 := by
    rw [peek_of_lt (by rw [hBlen]; norm_num), hB]
    rfl
  have hEOS1 : (⟨B, 1⟩ : LexState).isEOS = false :=
    isEOS_false_of_lt (by rw [hBlen]; norm_num)
  have hadv1 : (⟨B, 1⟩ : LexState).advance 1 = ⟨B, 2⟩ := by
    have h1 := advance_of_le (show 1 + 1 ≤ B.length by rw [hBlen]; norm_num)
    rw [show (1 + 1 : Nat) = 2 from rfl] at h1
    exact h1
  have hp2 : (⟨B, 2⟩ : LexState).peek = 48 := by
    rw [peek_of_lt (by rw [hBlen]; norm_num), hB]
    rfl
  have hEOS2 : (⟨B, 2⟩ : LexState).isEOS = false :=
    isEOS_false_of_lt (by rw [hBlen]; norm_num)
  have hadv2 : (⟨B, 2⟩ : LexState).advance 1 = ⟨B, 3⟩ := by
    have h1 := advance_of_le (show 2 + 1 ≤ B.length by rw [hBlen]; norm_num)
    rw [show (2 + 1 : Nat) = 3 from rfl] at h1
    exact h1
  have hread : readLenDigits 1 0 (⟨B, 2⟩ : LexState) = (0, ⟨B, 3⟩) := by
    unfold readLenDigits
    rw [if_pos ⟨hEOS2, by rw [hp2]; decide⟩, hp2, hadv2]
    unfold readLenDigits
    rfl
  have hlex : (lexArbitraryBlock ⟨formatArbBlock D0, 0⟩).1.data = [35, 49, 48] := by
    rw [hfmt]
    simp only [lexArbitraryBlock]
    rw [if_neg (show ¬((⟨B, 0⟩ : LexState).peek ≠ 35) by rw [hp0]; exact not_not_intro rfl)]
    rw [hadv0]
    rw [if_neg (show ¬((⟨B, 1⟩ : LexState).isEOS = true ∨
        isDigitB (⟨B, 1⟩ : LexState).peek = false) by
      rw [hEOS1, hp1]
      decide)]
    rw [hp1]
    rw [show (49 : Nat) - 48 = 1 from rfl]
    rw [if_neg (show ¬((1 : Nat) = 0) by norm_num)]
    rw [hadv1, hread]
    dsimp only
    rw [if_pos (show 3 + 0 ≤ (⟨B, 0⟩ : LexState).length by
      show 3 + 0 ≤ B.length
      rw [hBlen]
      norm_num)]
    have hadv3 : (⟨B, 3⟩ : LexState).advance 0 = ⟨B, 3⟩ := by
      have h1 := advance_of_le (show 3 + 0 ≤ B.length by rw [hBlen]; norm_num)
      rw [Nat.add_zero] at h1
      exact h1
    rw [hadv3]
    dsimp only
    unfold LexState.slice
    rw [Nat.sub_zero, List.drop_zero, hB]
    rfl
  unfold arbRoundTrip
  rw [hlex]
  intro hcontra
  rw [show paramArbExtract [35, 49, 48] = some [] from by decide] at hcontra
  have h2 : ([] : List Nat) = D0 := Option.some.inj hcontra
  have h3 := congrArg List.length h2
  rw [hD0len] at h3
  exact absurd h3 (by norm_num)

theorem advanceWhile_buffer (p : Nat → Bool) (l : LexState) :
    (advanceWhile p l).buffer = l.buffer := rfl

theorem advanceWhile_pos_ge (p : Nat → Bool) (l : LexState) (h : l.pos ≤ l.length) :
    l.pos ≤ (advanceWhile p l).pos := by
  simp only [advanceWhile, LexState.advance, LexState.length] at *
  omega

theorem advanceWhile_pos_le (p : Nat → Bool) (l : LexState) :
    (advanceWhile p l).pos ≤ l.length := by
  simp only [advanceWhile, LexState.advance, LexState.length]
  omega

theorem advanceWhile_stay (p : Nat → Bool) (l : LexState) (h : p l.peek = false) :
    (advanceWhile p l).pos = min l.pos l.length := by
  simp only [advanceWhile, LexState.advance, LexState.length]
  by_cases he : l.length ≤ l.pos
  · rw [List.drop_eq_nil_of_le he]
    simp only [List.takeWhile_nil, List.length_nil, Nat.add_zero]
  · have hlt : l.pos < l.buffer.length := by
      simp only [LexState.length] at he
      omega
    rw [List.drop_eq_getElem_cons hlt]
    have hpk : l.peek = l.buffer[l.pos] := by
      rw [peek_of_lt hlt]
      exact List.getD_eq_getElem l.buffer 0 hlt
    rw [List.takeWhile_cons, ← hpk, h]
    simp

theorem advanceWhile_step (p : Nat → Bool) (l : LexState) (hlt : l.pos < l.length)
    (h : p l.peek = true) : l.pos + 1 ≤ (advanceWhile p l).pos := by
  simp only [LexState.length] at hlt
  have hpk : l.peek = l.buffer[l.pos] := by
    rw [peek_of_lt hlt]
    exact List.getD_eq_getElem l.buffer 0 hlt
  simp only [advanceWhile, LexState.advance, LexState.length]
  rw [List.drop_eq_getElem_cons hlt, List.takeWhile_cons, ← hpk, h]
  simp only [if_true, List.length_cons]
  omega

theorem nodeEnd_buffer (l : LexState) : (nodeEnd l).buffer = l.buffer := by
  simp only [nodeEnd]
  split <;> rfl

theorem nodeEnd_pos_ge_min (l : LexState) :
    min l.pos l.buffer.length ≤ (nodeEnd l).pos := by
  simp only [nodeEnd, advanceWhile, LexState.advance, LexState.length]
  split <;> dsimp only <;> omega

theorem nodeEnd_pos_ge (l : LexState) (h : l.pos ≤ l.buffer.length) :
    l.pos ≤ (nodeEnd l).pos := by
  have := nodeEnd_pos_ge_min l
  omega

theorem nodeEnd_pos_le (l : LexState) : (nodeEnd l).pos ≤ l.buffer.length := by
  have h1 := advanceWhile_pos_le (fun c => isAlphaB c || isDigitB c) l
  simp only [LexState.length] at h1
  simp only [nodeEnd]
  split
  · simp only [LexState.advance, LexState.length, advanceWhile_buffer]
    omega
  · exact h1

theorem headerNodes_facts (k : Nat) : ∀ l : LexState, l.buffer.length - l.pos ≤ k →
    (headerNodes l).buffer = l.buffer ∧
      (l.pos ≤ l.buffer.length →
        l.pos ≤ (headerNodes l).pos ∧ (headerNodes l).pos ≤ l.buffer.length) := by
  induction k with
  | zero =>
    intro l hk
    rw [headerNodes.eq_def]
    split
    · exact ⟨rfl, fun h => ⟨le_refl _, h⟩⟩
    · split
      next hg =>
        exfalso
        obtain ⟨hg1, _⟩ := hg
        simp only [LexState.isEOS, LexState.length, decide_eq_false_iff_not, not_le,
          nodeEnd_buffer] at hg1
        have hmin := nodeEnd_pos_ge_min l
        omega
      next =>
        exact ⟨nodeEnd_buffer l, fun h => ⟨nodeEnd_pos_ge l h, nodeEnd_pos_le l⟩⟩
  | succ k ih =>
    intro l hk
    rw [headerNodes.eq_def]
    split
    · exact ⟨rfl, fun h => ⟨le_refl _, h⟩⟩
    · split
      next hg =>
        obtain ⟨hg1, _⟩ := hg
        simp only [LexState.isEOS, LexState.length, decide_eq_false_iff_not, not_le,
          nodeEnd_buffer] at hg1
        have hble := nodeEnd_pos_le l
        have hnb := nodeEnd_buffer l
        have hmin := nodeEnd_pos_ge_min l
        have hwf : l.pos ≤ l.buffer.length := by omega
        have hge := nodeEnd_pos_ge l hwf
        have hadv : ((nodeEnd l).advance 1) = ⟨l.buffer, (nodeEnd l).pos + 1⟩ := by
          simp only [LexState.advance, LexState.length, hnb]
          rw [LexState.mk.injEq]
          exact ⟨rfl, by omega⟩
        rw [hadv]
        have hih := ih ⟨l.buffer, (nodeEnd l).pos + 1⟩
          (show l.buffer.length - ((nodeEnd l).pos + 1) ≤ k by omega)
        have hb1 : (headerNodes ⟨l.buffer, (nodeEnd l).pos + 1⟩).buffer = l.buffer := hih.1
        refine ⟨hb1, fun _ => ?_⟩
        have hih2 := hih.2 (show (nodeEnd l).pos + 1 ≤ l.buffer.length by omega)
        have ha : (nodeEnd l).pos + 1 ≤ (headerNodes ⟨l.buffer, (nodeEnd l).pos + 1⟩).pos :=
          hih2.1
        have hb : (headerNodes ⟨l.buffer, (nodeEnd l).pos + 1⟩).pos ≤ l.buffer.length :=
          hih2.2
        exact ⟨by omega, hb⟩
      next =>
        exact ⟨nodeEnd_buffer l, fun h => ⟨nodeEnd_pos_ge l h, nodeEnd_pos_le l⟩⟩

theorem pos_lt_of_peek_ne (l : LexState) (h : l.peek ≠ 0) : l.pos < l.buffer.length := by
  unfold LexState.peek at h
  by_cases he : l.isEOS
  · rw [if_pos he] at h
    contradiction
  · simp only [LexState.isEOS, LexState.length, decide_eq_true_eq] at he
    omega

theorem advance_eq_of_le (l : LexState) (n : Nat) (h : l.pos + n ≤ l.buffer.length) :
    l.advance n = ⟨l.buffer, l.pos + n⟩ := by
  simp only [LexState.advance, LexState.length]
  rw [LexState.mk.injEq]
  exact ⟨rfl, by omega⟩

theorem nodeEnd_alpha (l : LexState) (h : isAlphaB l.peek = true) :
    l.pos + 1 ≤ (nodeEnd l).pos := by
  have hlt : l.pos < l.buffer.length := pos_lt_of_peek_ne l (by
    intro h0
    rw [h0] at h
    simp [isAlphaB] at h)
  have hstep := advanceWhile_step (fun c => isAlphaB c || isDigitB c) l
    (by simp only [LexState.length]; exact hlt) (by simp [h])
  have hle := advanceWhile_pos_le (fun c => isAlphaB c || isDigitB c) l
  simp only [LexState.length] at hle
  simp only [nodeEnd]
  split
  · simp only [LexState.advance, LexState.length, advanceWhile_buffer]
    omega
  · exact hstep

theorem headerNodes_alpha (l : LexState) (h : isAlphaB l.peek = true) :
    l.pos + 1 ≤ (headerNodes l).pos := by
  rw [headerNodes.eq_def]
  split
  next hc => rw [h] at hc; contradiction
  next =>
    split
    next hg =>
      obtain ⟨hg1, _⟩ := hg
      simp only [LexState.isEOS, LexState.length, decide_eq_false_iff_not, not_le,
        nodeEnd_buffer] at hg1
      have hne := nodeEnd_alpha l h
      have hnb := nodeEnd_buffer l
      have hadv : ((nodeEnd l).advance 1) = ⟨l.buffer, (nodeEnd l).pos + 1⟩ := by
        simp only [LexState.advance, LexState.length, hnb]
        rw [LexState.mk.injEq]
        exact ⟨rfl, by omega⟩
      rw [hadv]
      have hfacts := headerNodes_facts (l.buffer.length - ((nodeEnd l).pos + 1))
        ⟨l.buffer, (nodeEnd l).pos + 1⟩ (le_refl _)
      have h1 : (nodeEnd l).pos + 1 ≤ (headerNodes ⟨l.buffer, (nodeEnd l).pos + 1⟩).pos :=
        (hfacts.2 (show (nodeEnd l).pos + 1 ≤ l.buffer.length by omega)).1
      omega
    next => exact nodeEnd_alpha l h

theorem headerNodes_buffer (l : LexState) : (headerNodes l).buffer = l.buffer :=
  (headerNodes_facts (l.buffer.length - l.pos) l (le_refl _)).1

theorem headerNodes_pos_ge (l : LexState) (h : l.pos ≤ l.buffer.length) :
    l.pos ≤ (headerNodes l).pos :=
  ((headerNodes_facts (l.buffer.length - l.pos) l (le_refl _)).2 h).1

theorem headerNodes_pos_le (l : LexState) (h : l.pos ≤ l.buffer.length) :
    (headerNodes l).pos ≤ l.buffer.length :=
  ((headerNodes_facts (l.buffer.length - l.pos) l (le_refl _)).2 h).2

theorem headerNodes_stay (l : LexState) (h : isAlphaB l.peek = false) :
    headerNodes l = l := by
  rw [headerNodes.eq_def, if_pos h]

theorem isAlphaB_ne_zero (c : Nat) (h : isAlphaB c = true) : c ≠ 0 := by
  simp only [isAlphaB, Bool.or_eq_true, Bool.and_eq_true, decide_eq_true_eq] at h
  omega

theorem lexext (a b : LexState) (h1 : a.buffer = b.buffer) (h2 : a.pos = b.pos) :
    a = b := by
  cases a
  cases b
  simp_all

theorem advance_pos_ge (l : LexState) (n : Nat) (h : l.pos ≤ l.buffer.length) :
    l.pos ≤ (l.advance n).pos := by
  simp only [LexState.advance, LexState.length]
  omega

/-- C8 (amended): `lexProgramHeader` produces a token exactly when the input
starts with `*` followed by a letter or `?`, or with `:`, a letter, or `?`;
in particular a bare `:`, a bare `?`, and `*?` DO produce header tokens,
contrary to the claim that a header needs at least one alphabetic character. -/
theorem lexProgramHeader_succeeds_iff (l : LexState) :
    (lexProgramHeader l).2.1 ≠ 0 ↔
      ((l.peek = 42 ∧ (isAlphaB ((l.advance 1).peek) = true ∨ (l.advance 1).peek = 63)) ∨
        l.peek = 58 ∨ isAlphaB l.peek = true ∨ l.peek = 63) := by
  simp only [lexProgramHeader]
  by_cases h42 : l.peek = 42
  · rw [if_pos h42]
    have hlt : l.pos < l.buffer.length := pos_lt_of_peek_ne l (by rw [h42]; decide)
    have hadv1 : l.advance 1 = ⟨l.buffer, l.pos + 1⟩ := advance_eq_of_le l 1 (by omega)
    have hp1 : (l.advance 1).pos = l.pos + 1 := by rw [hadv1]
    have hb1 : (l.advance 1).buffer = l.buffer := by rw [hadv1]
    have hl2le : (advanceWhile isAlphaB (l.advance 1)).pos ≤ l.buffer.length := by
      have h0 := advanceWhile_pos_le isAlphaB (l.advance 1)
      simpa only [LexState.length, hb1] using h0
    have hl2b : (advanceWhile isAlphaB (l.advance 1)).buffer = l.buffer := by
      rw [advanceWhile_buffer, hb1]
    by_cases halpha : isAlphaB ((l.advance 1).peek) = true
    · have h1lt : (l.advance 1).pos < (l.advance 1).length := by
        have h0 := pos_lt_of_peek_ne (l.advance 1) (isAlphaB_ne_zero _ halpha)
        simpa only [LexState.length] using h0
      have hstep := advanceWhile_step isAlphaB (l.advance 1) h1lt halpha
      by_cases hc2 : (advanceWhile isAlphaB (l.advance 1)).isEOS = false ∧
          (advanceWhile isAlphaB (l.advance 1)).peek = 63
      · rw [if_pos hc2]
        have hadv2 : (advanceWhile isAlphaB (l.advance 1)).pos ≤
            ((advanceWhile isAlphaB (l.advance 1)).advance 1).pos :=
          advance_pos_ge _ 1 (by rw [hl2b]; exact hl2le)
        rw [if_pos (show l.pos + 1 <
          ((advanceWhile isAlphaB (l.advance 1)).advance 1).pos by omega)]
        refine iff_of_true ?_ (Or.inl ⟨h42, Or.inl halpha⟩)
        dsimp only
        omega
      · rw [if_neg hc2]
        rw [if_pos (show l.pos + 1 < (advanceWhile isAlphaB (l.advance 1)).pos by omega)]
        refine iff_of_true ?_ (Or.inl ⟨h42, Or.inl halpha⟩)
        dsimp only
        omega
    · have hl2 : advanceWhile isAlphaB (l.advance 1) = l.advance 1 := by
        refine lexext _ _ (by rw [advanceWhile_buffer]) ?_
        rw [advanceWhile_stay isAlphaB (l.advance 1) (Bool.eq_false_iff.mpr halpha)]
        simp only [LexState.length, hp1, hb1]
        omega
      rw [hl2]
      by_cases h63 : (l.advance 1).peek = 63
      · have h63lt : (l.advance 1).pos < (l.advance 1).buffer.length :=
          pos_lt_of_peek_ne (l.advance 1) (by rw [h63]; decide)
        have heos : (l.advance 1).isEOS = false := by
          simp only [LexState.isEOS, LexState.length, decide_eq_false_iff_not]
          omega
        have hc2 : (l.advance 1).isEOS = false ∧ (l.advance 1).peek = 63 := ⟨heos, h63⟩
        rw [if_pos hc2]
        have hp3 : ((l.advance 1).advance 1).pos = l.pos + 2 := by
          simp only [LexState.advance, LexState.length] at h63lt ⊢
          omega
        rw [if_pos (show l.pos + 1 < ((l.advance 1).advance 1).pos by omega)]
        refine iff_of_true ?_ (Or.inl ⟨h42, Or.inr h63⟩)
        dsimp only
        omega
      · have hcneg : ¬((l.advance 1).isEOS = false ∧ (l.advance 1).peek = 63) :=
          fun hc => h63 hc.2
        rw [if_neg hcneg]
        rw [if_neg (show ¬(l.pos + 1 < (l.advance 1).pos) by rw [hp1]; omega)]
        refine iff_of_false (by dsimp only; omega) ?_
        rintro (⟨-, h⟩ | h58 | ha | h63r)
        · rcases h with h | h
          · exact halpha h
          · exact h63 h
        · rw [h42] at h58
          omega
        · rw [h42] at ha
          exact absurd ha (by decide)
        · rw [h42] at h63r
          omega
  · rw [if_neg h42]
    by_cases h58 : l.peek = 58
    · rw [if_pos h58]
      have hlt : l.pos < l.buffer.length := pos_lt_of_peek_ne l (by rw [h58]; decide)
      have hadv1 : l.advance 1 = ⟨l.buffer, l.pos + 1⟩ := advance_eq_of_le l 1 (by omega)
      have hp1 : (l.advance 1).pos = l.pos + 1 := by rw [hadv1]
      have hb1 : (l.advance 1).buffer = l.buffer := by rw [hadv1]
      have hn_ge : (l.advance 1).pos ≤ (headerNodes (l.advance 1)).pos :=
        headerNodes_pos_ge _ (by rw [hp1, hb1]; omega)
      have hn_le : (headerNodes (l.advance 1)).pos ≤ l.buffer.length := by
        have h0 := headerNodes_pos_le (l.advance 1) (by rw [hp1, hb1]; omega)
        rwa [hb1] at h0
      have hn_buf : (headerNodes (l.advance 1)).buffer = l.buffer := by
        rw [headerNodes_buffer, hb1]
      by_cases hc2 : (headerNodes (l.advance 1)).isEOS = false ∧
          (headerNodes (l.advance 1)).peek = 63
      · rw [if_pos hc2]
        have hadv2 : (headerNodes (l.advance 1)).pos ≤
            ((headerNodes (l.advance 1)).advance 1).pos :=
          advance_pos_ge _ 1 (by rw [hn_buf]; exact hn_le)
        rw [if_pos (show l.pos < ((headerNodes (l.advance 1)).advance 1).pos by omega)]
        refine iff_of_true ?_ (Or.inr (Or.inl h58))
        dsimp only
        omega
      · rw [if_neg hc2]
        rw [if_pos (show l.pos < (headerNodes (l.advance 1)).pos by omega)]
        refine iff_of_true ?_ (Or.inr (Or.inl h58))
        dsimp only
        omega
    · rw [if_neg h58]
      by_cases halpha : isAlphaB l.peek = true
      · have hlt : l.pos < l.buffer.length :=
          pos_lt_of_peek_ne l (isAlphaB_ne_zero _ halpha)
        have hn_alpha := headerNodes_alpha l halpha
        have hn_le : (headerNodes l).pos ≤ l.buffer.length :=
          headerNodes_pos_le l (by omega)
        have hn_buf : (headerNodes l).buffer = l.buffer := headerNodes_buffer l
        by_cases hc2 : (headerNodes l).isEOS = false ∧ (headerNodes l).peek = 63
        · rw [if_pos hc2]
          have hadv2 : (headerNodes l).pos ≤ ((headerNodes l).advance 1).pos :=
            advance_pos_ge _ 1 (by rw [hn_buf]; exact hn_le)
          rw [if_pos (show l.pos < ((headerNodes l).advance 1).pos by omega)]
          refine iff_of_true ?_ (Or.inr (Or.inr (Or.inl halpha)))
          dsimp only
          omega
        · rw [if_neg hc2]
          rw [if_pos (show l.pos < (headerNodes l).pos by omega)]
          refine iff_of_true ?_ (Or.inr (Or.inr (Or.inl halpha)))
          dsimp only
          omega
      · have hhn : headerNodes l = l := headerNodes_stay l (Bool.eq_false_iff.mpr halpha)
        rw [hhn]
        by_cases h63 : l.peek = 63
        · have hlt : l.pos < l.buffer.length := pos_lt_of_peek_ne l (by rw [h63]; decide)
          have heos : l.isEOS = false := by
            simp only [LexState.isEOS, LexState.length, decide_eq_false_iff_not]
            omega
          have hc2 : l.isEOS = false ∧ l.peek = 63 := ⟨heos, h63⟩
          rw [if_pos hc2]
          have hp2 : (l.advance 1).pos = l.pos + 1 := by
            simp only [LexState.advance, LexState.length]
            omega
          rw [if_pos (show l.pos < (l.advance 1).pos by omega)]
          refine iff_of_true ?_ (Or.inr (Or.inr (Or.inr h63)))
          dsimp only
          omega
        · have hcneg : ¬(l.isEOS = false ∧ l.peek = 63) := fun hc => h63 hc.2
          rw [if_neg hcneg]
          rw [if_neg (show ¬(l.pos < l.pos) by omega)]
          refine iff_of_false (by dsimp only; omega) ?_
          rintro (⟨hp, -⟩ | h58r | ha | h63r)
          · exact h42 hp
          · exact h58 h58r
          · exact halpha ha
          · exact h63 h63r

/-- C8 counterexample: contrary to the claim, `*?` IS lexed as a two-byte
common program header, and a bare `:` or a bare `?` each produce a one-byte
compound header token instead of returning length 0. -/
theorem lexProgramHeader_no_alpha_tokens :
    (lexProgramHeader ⟨[42, 63], 0⟩).2.1 = 2 ∧
      (lexProgramHeader ⟨[42, 63], 0⟩).1.type = TokType.CommonProgramHeader ∧
      (lexProgramHeader ⟨[58], 0⟩).2.1 = 1 ∧
      (lexProgramHeader ⟨[63], 0⟩).2.1 = 1 := by
  refine ⟨?_, ?_, ?_, ?_⟩ <;>
    simp [lexProgramHeader, advanceWhile, headerNodes, nodeEnd, LexState.advance,
      LexState.peek, LexState.isEOS, LexState.length, isAlphaB, isDigitB,
      List.takeWhile]

theorem advance_buffer (l : LexState) (n : Nat) : (l.advance n).buffer = l.buffer := rfl

theorem scanQuoted_some_gt (q k : Nat) : ∀ l l2 : LexState, l.buffer.length - l.pos ≤ k →
    scanQuoted q l = some l2 → l2.buffer = l.buffer ∧ l.pos < l2.pos := by
  induction k with
  | zero =>
    intro l l2 hk hs
    rw [scanQuoted.eq_def] at hs
    split at hs
    · cases hs
    next h =>
      simp only [LexState.isEOS, LexState.length, decide_eq_true_eq, not_le] at h
      omega
  | succ k ih =>
    intro l l2 hk hs
    rw [scanQuoted.eq_def] at hs
    split at hs
    · cases hs
    next h =>
      simp only [LexState.isEOS, LexState.length, decide_eq_true_eq, not_le] at h
      have hp1 : (l.advance 1).pos = l.pos + 1 := by
        simp only [LexState.advance, LexState.length]
        omega
      have hb1 : (l.advance 1).buffer = l.buffer := rfl
      dsimp only at hs
      split at hs
      · split at hs
        next h2 =>
          have hp2 : ((l.advance 1).advance 1).pos = min (l.pos + 2) l.buffer.length := by
            simp only [LexState.advance, LexState.length]
            omega
          have hb2 : ((l.advance 1).advance 1).buffer = l.buffer := rfl
          have := ih ((l.advance 1).advance 1) l2 (by rw [hb2, hp2]; omega) hs
          rw [hb2] at this
          exact ⟨this.1, by omega⟩
        next h2 =>
          cases hs
          exact ⟨hb1, by omega⟩
      · have := ih (l.advance 1) l2 (by rw [hb1, hp1]; omega) hs
        rw [hb1] at this
        exact ⟨this.1, by omega⟩

theorem scanExpr_some_gt (k : Nat) : ∀ (d : Int) (l l2 : LexState),
    l.buffer.length - l.pos ≤ k →
    scanExpr d l = some l2 → l2.buffer = l.buffer ∧ l.pos < l2.pos := by
  induction k with
  | zero =>
    intro d l l2 hk hs
    rw [scanExpr.eq_def] at hs
    split at hs
    · cases hs
    next h =>
      simp only [LexState.isEOS, LexState.length, decide_eq_true_eq, not_le] at h
      omega
  | succ k ih =>
    intro d l l2 hk hs
    rw [scanExpr.eq_def] at hs
    split at hs
    · cases hs
    next h =>
      simp only [LexState.isEOS, LexState.length, decide_eq_true_eq, not_le] at h
      have hp1 : (l.advance 1).pos = l.pos + 1 := by
        simp only [LexState.advance, LexState.length]
        omega
      have hb1 : (l.advance 1).buffer = l.buffer := rfl
      dsimp only at hs
      split at hs
      · have := ih (d + 1) (l.advance 1) l2 (by rw [hb1, hp1]; omega) hs
        rw [hb1] at this
        exact ⟨this.1, by omega⟩
      · split at hs
        · split at hs
          · cases hs
            exact ⟨hb1, by omega⟩
          · have := ih (d - 1) (l.advance 1) l2 (by rw [hb1, hp1]; omega) hs
            rw [hb1] at this
            exact ⟨this.1, by omega⟩
        · have := ih d (l.advance 1) l2 (by rw [hb1, hp1]; omega) hs
          rw [hb1] at this
          exact ⟨this.1, by omega⟩

theorem readLenDigits_buffer (k acc : Nat) (l : LexState) :
    (readLenDigits k acc l).2.buffer = l.buffer := by
  induction k generalizing acc l with
  | zero => rfl
  | succ k ih =>
    rw [readLenDigits]
    split
    · rw [ih]
      rfl
    · rfl

theorem readLenDigits_pos_ge (k acc : Nat) (l : LexState) :
    l.pos ≤ (readLenDigits k acc l).2.pos ∨ l.buffer.length < l.pos := by
  induction k generalizing acc l with
  | zero => exact Or.inl (le_refl _)
  | succ k ih =>
    rw [readLenDigits]
    split
    next hc =>
      have hlt : l.pos < l.buffer.length := by
        have h0 := hc.1
        simp only [LexState.isEOS, LexState.length, decide_eq_false_iff_not, not_le] at h0
        exact h0
      have hp1 : (l.advance 1).pos = l.pos + 1 := by
        simp only [LexState.advance, LexState.length]
        omega
      have hb1 : (l.advance 1).buffer = l.buffer := rfl
      rcases ih (acc * 10 + (l.peek - 48)) (l.advance 1) with h1 | h1
      · exact Or.inl (by omega)
      · rw [hb1, hp1] at h1
        omega
    · exact Or.inl (le_refl _)

theorem lexWhitespace_restore (l : LexState) (hwf : l.pos ≤ l.buffer.length)
    (h : (lexWhitespace l).2.1 = 0) : (lexWhitespace l).2.2 = l := by
  simp only [lexWhitespace] at h ⊢
  have hge := advanceWhile_pos_ge isWhitespaceB l (by simpa only [LexState.length] using hwf)
  exact lexext _ _ (advanceWhile_buffer _ _) (by omega)

theorem lexNewLine_restore (l : LexState) (hwf : l.pos ≤ l.buffer.length)
    (h : (lexNewLine l).2.1 = 0) : (lexNewLine l).2.2 = l := by
  simp only [lexNewLine] at h ⊢
  by_cases h10 : l.peek = 10
  · rw [if_pos h10] at h
    dsimp only at h
    omega
  · rw [if_neg h10] at h ⊢
    by_cases h13 : l.peek = 13
    · rw [if_pos h13] at h
      exfalso
      have hlt : l.pos < l.buffer.length := pos_lt_of_peek_ne l (by rw [h13]; decide)
      dsimp only at h
      split at h <;> simp only [LexState.advance, LexState.length] at h <;> omega
    · rw [if_neg h13]

theorem lexSemicolon_restore (l : LexState) (h : (lexSemicolon l).2.1 = 0) :
    (lexSemicolon l).2.2 = l := by
  simp only [lexSemicolon] at h ⊢
  by_cases hc : l.peek = 59
  · rw [if_pos hc] at h
    dsimp only at h
    omega
  · rw [if_neg hc]

theorem lexComma_restore (l : LexState) (h : (lexComma l).2.1 = 0) :
    (lexComma l).2.2 = l := by
  simp only [lexComma] at h ⊢
  by_cases hc : l.peek = 44
  · rw [if_pos hc] at h
    dsimp only at h
    omega
  · rw [if_neg hc]

theorem lexColon_restore (l : LexState) (h : (lexColon l).2.1 = 0) :
    (lexColon l).2.2 = l := by
  simp only [lexColon] at h ⊢
  by_cases hc : l.peek = 58
  · rw [if_pos hc] at h
    dsimp only at h
    omega
  · rw [if_neg hc]

theorem lexCharacterProgramData_restore (l : LexState) (hwf : l.pos ≤ l.buffer.length)
    (h : (lexCharacterProgramData l).2.1 = 0) : (lexCharacterProgramData l).2.2 = l := by
  simp only [lexCharacterProgramData] at h ⊢
  by_cases hc : isAlphaB l.peek = false
  · rw [if_pos hc]
  · rw [if_neg hc] at h ⊢
    have hge := advanceWhile_pos_ge (fun c => isAlphaB c || isDigitB c || decide (c = 95)) l
      (by simpa only [LexState.length] using hwf)
    split at h
    next hcond =>
      dsimp only at h
      omega
    next hcond =>
      rw [if_neg hcond]
      dsimp only
      exact lexext _ _ (advanceWhile_buffer _ _) (by omega)

theorem lexSuffixProgramData_restore (l : LexState) (hwf : l.pos ≤ l.buffer.length)
    (h : (lexSuffixProgramData l).2.1 = 0) : (lexSuffixProgramData l).2.2 = l := by
  simp only [lexSuffixProgramData] at h ⊢
  by_cases hc : isAlphaB l.peek = false
  · rw [if_pos hc]
  · rw [if_neg hc] at h ⊢
    have hge := advanceWhile_pos_ge isAlphaB l (by simpa only [LexState.length] using hwf)
    split at h
    next hcond =>
      dsimp only at h
      omega
    next hcond =>
      rw [if_neg hcond]
      dsimp only
      exact lexext _ _ (advanceWhile_buffer _ _) (by omega)

theorem finish_restore (l l4 : LexState) (tok : Token) (C : Prop) [Decidable C]
    (hbuf : l4.buffer = l.buffer)
    (h : (if C ∧ l.pos < l4.pos then (tok, l4.pos - l.pos, l4)
          else (unknownTok, 0, { l4 with pos := l.pos })).2.1 = 0) :
    (if C ∧ l.pos < l4.pos then (tok, l4.pos - l.pos, l4)
      else (unknownTok, 0, { l4 with pos := l.pos })).2.2 = l := by
  split at h
  next hcond =>
    exfalso
    have h2 := hcond.2
    dsimp only at h
    omega
  next hcond =>
    rw [if_neg hcond]
    exact lexext _ _ hbuf rfl

theorem lexDecimalNumeric_restore (l : LexState) (h : (lexDecimalNumeric l).2.1 = 0) :
    (lexDecimalNumeric l).2.2 = l := by
  simp only [lexDecimalNumeric] at h ⊢
  refine finish_restore l _ _ _ ?_ h
  repeat first
    | rfl
    | rw [advanceWhile_buffer]
    | rw [advance_buffer]
    | split
    | dsimp only

theorem lexStringProgramData_restore (l : LexState) (hwf : l.pos ≤ l.buffer.length)
    (h : (lexStringProgramData l).2.1 = 0) : (lexStringProgramData l).2.2 = l := by
  simp only [lexStringProgramData] at h ⊢
  by_cases hq : l.peek ≠ 34 ∧ l.peek ≠ 39
  · rw [if_pos hq]
  · rw [if_neg hq] at h ⊢
    have hne : l.peek ≠ 0 := by
      intro h0
      exact hq ⟨by omega, by omega⟩
    have hlt : l.pos < l.buffer.length := pos_lt_of_peek_ne l hne
    have hp1 : (l.advance 1).pos = l.pos + 1 := by
      simp only [LexState.advance, LexState.length]
      omega
    have hb1 : (l.advance 1).buffer = l.buffer := rfl
    split at h
    next l2 heq =>
      exfalso
      have hgt := scanQuoted_some_gt l.peek ((l.advance 1).buffer.length - (l.advance 1).pos)
        (l.advance 1) l2 (le_refl _) heq
      dsimp only at h
      rw [hb1, hp1] at hgt
      omega
    next heq =>
      rfl

theorem lexProgramExpression_restore (l : LexState) (hwf : l.pos ≤ l.buffer.length)
    (h : (lexProgramExpression l).2.1 = 0) : (lexProgramExpression l).2.2 = l := by
  simp only [lexProgramExpression] at h ⊢
  by_cases hq : l.peek ≠ 40
  · rw [if_pos hq]
  · rw [if_neg hq] at h ⊢
    split at h
    next l2 heq =>
      exfalso
      have hgt := scanExpr_some_gt (l.buffer.length - l.pos) 0 l l2 (le_refl _) heq
      dsimp only at h
      omega
    next heq =>
      rfl

theorem lexNondecimalNumeric_restore (l : LexState)
    (h : (lexNondecimalNumeric l).2.1 = 0) : (lexNondecimalNumeric l).2.2 = l := by
  simp only [lexNondecimalNumeric] at h ⊢
  by_cases h35 : l.peek ≠ 35
  · rw [if_pos h35]
  · rw [if_neg h35] at h ⊢
    by_cases heos : (l.advance 1).isEOS = true
    · rw [if_pos heos]
      rfl
    · rw [if_neg heos] at h ⊢
      split at h
      next heq => rfl
      next tt l2 heq =>
        have hbuf : l2.buffer = l.buffer := by
          split at heq
          · simp only [Option.some.injEq, Prod.mk.injEq] at heq
            rw [← heq.2]
            rfl
          · split at heq
            · simp only [Option.some.injEq, Prod.mk.injEq] at heq
              rw [← heq.2]
              rfl
            · split at heq
              · simp only [Option.some.injEq, Prod.mk.injEq] at heq
                rw [← heq.2]
                rfl
              · simp at heq
        split at h
        next hcond =>
          exfalso
          dsimp only at h
          omega
        next hcond =>
          rw [if_neg hcond]
          exact lexext _ _ hbuf rfl

theorem lexArbitraryBlock_restore (l : LexState)
    (h : (lexArbitraryBlock l).2.1 = 0) : (lexArbitraryBlock l).2.2 = l := by
  simp only [lexArbitraryBlock] at h ⊢
  by_cases h35 : l.peek ≠ 35
  · rw [if_pos h35]
  · rw [if_neg h35] at h ⊢
    have hlt : l.pos < l.buffer.length :=
      pos_lt_of_peek_ne l (by intro h0; exact h35 (by rw [h0]; decide))
    have hp1 : (l.advance 1).pos = l.pos + 1 := by
      simp only [LexState.advance, LexState.length]
      omega
    have hb1 : (l.advance 1).buffer = l.buffer := rfl
    by_cases hcase : (l.advance 1).isEOS = true ∨ isDigitB (l.advance 1).peek = false
    · rw [if_pos hcase]
      rfl
    · rw [if_neg hcase] at h ⊢
      have hlt1 : (l.advance 1).pos < l.buffer.length := by
        have h0 : ¬((l.advance 1).isEOS = true) := fun hx => hcase (Or.inl hx)
        simp only [LexState.isEOS, LexState.length, decide_eq_true_eq, not_le, hb1] at h0
        exact h0
      have hp2 : ((l.advance 1).advance 1).pos = l.pos + 2 := by
        simp only [LexState.advance, LexState.length, hb1, hp1]
        omega
      have hb2 : ((l.advance 1).advance 1).buffer = l.buffer := rfl
      by_cases hzero : (l.advance 1).peek - 48 = 0
      · rw [if_pos hzero] at h
        exfalso
        have hge := advanceWhile_pos_ge (fun c => !(c = 10 || c = 13))
          ((l.advance 1).advance 1) (by simp only [LexState.length, hb2, hp2]; omega)
        dsimp only at h
        omega
      · rw [if_neg hzero] at h ⊢
        have hrlb := readLenDigits_buffer ((l.advance 1).peek - 48) 0 ((l.advance 1).advance 1)
        rw [hb2] at hrlb
        have hrlp := readLenDigits_pos_ge ((l.advance 1).peek - 48) 0 ((l.advance 1).advance 1)
        rw [hb2, hp2] at hrlp
        split at h
        next hcond =>
          exfalso
          have hL : l.length = l.buffer.length := rfl
          have hadv : ((readLenDigits ((l.advance 1).peek - 48) 0
              ((l.advance 1).advance 1)).2.advance
                (readLenDigits ((l.advance 1).peek - 48) 0 ((l.advance 1).advance 1)).1).pos =
              min ((readLenDigits ((l.advance 1).peek - 48) 0 ((l.advance 1).advance 1)).2.pos +
                (readLenDigits ((l.advance 1).peek - 48) 0 ((l.advance 1).advance 1)).1)
                (readLenDigits ((l.advance 1).peek - 48) 0 ((l.advance 1).advance 1)).2.buffer.length := rfl
          rw [hrlb] at hadv
          rw [hL] at hcond
          dsimp only at h
          omega
        next hcond =>
          rw [if_neg hcond]
          exact lexext _ _ hrlb rfl

theorem lexProgramHeader_restore_compound (l : LexState) (h42 : l.peek ≠ 42)
    (h : (lexProgramHeader l).2.1 = 0) : (lexProgramHeader l).2.2 = l := by
  simp only [lexProgramHeader] at h ⊢
  rw [if_neg h42] at h ⊢
  by_cases h58 : l.peek = 58
  · rw [if_pos h58] at h
    exfalso
    have hlt : l.pos < l.buffer.length := pos_lt_of_peek_ne l (by rw [h58]; decide)
    have hadv1 : l.advance 1 = ⟨l.buffer, l.pos + 1⟩ := advance_eq_of_le l 1 (by omega)
    have hp1 : (l.advance 1).pos = l.pos + 1 := by rw [hadv1]
    have hb1 : (l.advance 1).buffer = l.buffer := by rw [hadv1]
    have hn_ge : (l.advance 1).pos ≤ (headerNodes (l.advance 1)).pos :=
      headerNodes_pos_ge _ (by rw [hp1, hb1]; omega)
    have hn_le : (headerNodes (l.advance 1)).pos ≤ l.buffer.length := by
      have h0 := headerNodes_pos_le (l.advance 1) (by rw [hp1, hb1]; omega)
      rwa [hb1] at h0
    have hn_buf : (headerNodes (l.advance 1)).buffer = l.buffer := by
      rw [headerNodes_buffer, hb1]
    by_cases hc2 : (headerNodes (l.advance 1)).isEOS = false ∧
        (headerNodes (l.advance 1)).peek = 63
    · rw [if_pos hc2] at h
      have hadv2 : (headerNodes (l.advance 1)).pos ≤
          ((headerNodes (l.advance 1)).advance 1).pos :=
        advance_pos_ge _ 1 (by rw [hn_buf]; exact hn_le)
      rw [if_pos (show l.pos < ((headerNodes (l.advance 1)).advance 1).pos by omega)] at h
      dsimp only at h
      omega
    · rw [if_neg hc2] at h
      rw [if_pos (show l.pos < (headerNodes (l.advance 1)).pos by omega)] at h
      dsimp only at h
      omega
  · rw [if_neg h58] at h ⊢
    by_cases halpha : isAlphaB l.peek = true
    · exfalso
      have hlt : l.pos < l.buffer.length :=
        pos_lt_of_peek_ne l (isAlphaB_ne_zero _ halpha)
      have hn_alpha := headerNodes_alpha l halpha
      have hn_le : (headerNodes l).pos ≤ l.buffer.length :=
        headerNodes_pos_le l (by omega)
      have hn_buf : (headerNodes l).buffer = l.buffer := headerNodes_buffer l
      by_cases hc2 : (headerNodes l).isEOS = false ∧ (headerNodes l).peek = 63
      · rw [if_pos hc2] at h
        have hadv2 : (headerNodes l).pos ≤ ((headerNodes l).advance 1).pos :=
          advance_pos_ge _ 1 (by rw [hn_buf]; exact hn_le)
        rw [if_pos (show l.pos < ((headerNodes l).advance 1).pos by omega)] at h
        dsimp only at h
        omega
      · rw [if_neg hc2] at h
        rw [if_pos (show l.pos < (headerNodes l).pos by omega)] at h
        dsimp only at h
        omega
    · have hhn : headerNodes l = l := headerNodes_stay l (Bool.eq_false_iff.mpr halpha)
      rw [hhn] at h ⊢
      by_cases h63 : l.peek = 63
      · exfalso
        have hlt : l.pos < l.buffer.length := pos_lt_of_peek_ne l (by rw [h63]; decide)
        have heos : l.isEOS = false := by
          simp only [LexState.isEOS, LexState.length, decide_eq_false_iff_not]
          omega
        have hc2 : l.isEOS = false ∧ l.peek = 63 := ⟨heos, h63⟩
        rw [if_pos hc2] at h
        have hp2 : (l.advance 1).pos = l.pos + 1 := by
          simp only [LexState.advance, LexState.length]
          omega
        rw [if_pos (show l.pos < (l.advance 1).pos by omega)] at h
        dsimp only at h
        omega
      · have hcneg : ¬(l.isEOS = false ∧ l.peek = 63) := fun hc => h63 hc.2
        rw [if_neg hcneg] at h ⊢
        rw [if_neg (show ¬(l.pos < l.pos) by omega)]

theorem lexProgramHeader_star_state (l : LexState) (h42 : l.peek = 42)
    (h : (lexProgramHeader l).2.1 = 0) : (lexProgramHeader l).2.2 = l.advance 1 := by
  simp only [lexProgramHeader] at h ⊢
  rw [if_pos h42] at h ⊢
  have hlt : l.pos < l.buffer.length := pos_lt_of_peek_ne l (by rw [h42]; decide)
  have hadv1 : l.advance 1 = ⟨l.buffer, l.pos + 1⟩ := advance_eq_of_le l 1 (by omega)
  have hp1 : (l.advance 1).pos = l.pos + 1 := by rw [hadv1]
  have hb1 : (l.advance 1).buffer = l.buffer := by rw [hadv1]
  have hl2le : (advanceWhile isAlphaB (l.advance 1)).pos ≤ l.buffer.length := by
    have h0 := advanceWhile_pos_le isAlphaB (l.advance 1)
    simpa only [LexState.length, hb1] using h0
  have hl2b : (advanceWhile isAlphaB (l.advance 1)).buffer = l.buffer := by
    rw [advanceWhile_buffer, hb1]
  by_cases halpha : isAlphaB ((l.advance 1).peek) = true
  · exfalso
    have h1lt : (l.advance 1).pos < (l.advance 1).length := by
      have h0 := pos_lt_of_peek_ne (l.advance 1) (isAlphaB_ne_zero _ halpha)
      simpa only [LexState.length] using h0
    have hstep := advanceWhile_step isAlphaB (l.advance 1) h1lt halpha
    by_cases hc2 : (advanceWhile isAlphaB (l.advance 1)).isEOS = false ∧
        (advanceWhile isAlphaB (l.advance 1)).peek = 63
    · rw [if_pos hc2] at h
      have hadv2 : (advanceWhile isAlphaB (l.advance 1)).pos ≤
          ((advanceWhile isAlphaB (l.advance 1)).advance 1).pos :=
        advance_pos_ge _ 1 (by rw [hl2b]; exact hl2le)
      rw [if_pos (show l.pos + 1 <
        ((advanceWhile isAlphaB (l.advance 1)).advance 1).pos by omega)] at h
      dsimp only at h
      omega
    · rw [if_neg hc2] at h
      rw [if_pos (show l.pos + 1 < (advanceWhile isAlphaB (l.advance 1)).pos by omega)] at h
      dsimp only at h
      omega
  · have hl2 : advanceWhile isAlphaB (l.advance 1) = l.advance 1 := by
      refine lexext _ _ (by rw [advanceWhile_buffer]) ?_
      rw [advanceWhile_stay isAlphaB (l.advance 1) (Bool.eq_false_iff.mpr halpha)]
      simp only [LexState.length, hp1, hb1]
      omega
    rw [hl2] at h ⊢
    by_cases h63 : (l.advance 1).peek = 63
    · exfalso
      have h63lt : (l.advance 1).pos < (l.advance 1).buffer.length :=
        pos_lt_of_peek_ne (l.advance 1) (by rw [h63]; decide)
      have heos : (l.advance 1).isEOS = false := by
        simp only [LexState.isEOS, LexState.length, decide_eq_false_iff_not]
        omega
      have hc2 : (l.advance 1).isEOS = false ∧ (l.advance 1).peek = 63 := ⟨heos, h63⟩
      rw [if_pos hc2] at h
      have hp3 : ((l.advance 1).advance 1).pos = l.pos + 2 := by
        simp only [LexState.advance, LexState.length] at h63lt ⊢
        omega
      rw [if_pos (show l.pos + 1 < ((l.advance 1).advance 1).pos by omega)] at h
      dsimp only at h
      omega
    · have hcneg : ¬((l.advance 1).isEOS = false ∧ (l.advance 1).peek = 63) :=
        fun hc => h63 hc.2
      rw [if_neg hcneg] at h ⊢
      rw [if_neg (show ¬(l.pos + 1 < (l.advance 1).pos) by rw [hp1]; omega)]

/-- C7 (amended): on a well-formed lexer state, every lexer primitive that
returns consumed length 0 leaves the state exactly as it was, with the single
exception of the common-command branch of `lexProgramHeader`: when the input
starts with `*` and no letter or `?` follows, it returns length 0 with the
cursor advanced one byte past the `*`, not restored. -/
theorem lexer_mismatch_restores (l : LexState) (hwf : l.pos ≤ l.buffer.length) :
    ((lexWhitespace l).2.1 = 0 → (lexWhitespace l).2.2 = l) ∧
    ((lexNewLine l).2.1 = 0 → (lexNewLine l).2.2 = l) ∧
    ((lexSemicolon l).2.1 = 0 → (lexSemicolon l).2.2 = l) ∧
    ((lexComma l).2.1 = 0 → (lexComma l).2.2 = l) ∧
    ((lexColon l).2.1 = 0 → (lexColon l).2.2 = l) ∧
    ((lexDecimalNumeric l).2.1 = 0 → (lexDecimalNumeric l).2.2 = l) ∧
    ((lexNondecimalNumeric l).2.1 = 0 → (lexNondecimalNumeric l).2.2 = l) ∧
    ((lexCharacterProgramData l).2.1 = 0 → (lexCharacterProgramData l).2.2 = l) ∧
    ((lexSuffixProgramData l).2.1 = 0 → (lexSuffixProgramData l).2.2 = l) ∧
    ((lexStringProgramData l).2.1 = 0 → (lexStringProgramData l).2.2 = l) ∧
    ((lexArbitraryBlock l).2.1 = 0 → (lexArbitraryBlock l).2.2 = l) ∧
    ((lexProgramExpression l).2.1 = 0 → (lexProgramExpression l).2.2 = l) ∧
    (l.peek ≠ 42 → (lexProgramHeader l).2.1 = 0 → (lexProgramHeader l).2.2 = l) ∧
    (l.peek = 42 → (lexProgramHeader l).2.1 = 0 →
      (lexProgramHeader l).2.2 = l.advance 1) :=
  ⟨lexWhitespace_restore l hwf, lexNewLine_restore l hwf, lexSemicolon_restore l,
   lexComma_restore l, lexColon_restore l, lexDecimalNumeric_restore l,
   lexNondecimalNumeric_restore l, lexCharacterProgramData_restore l hwf,
   lexSuffixProgramData_restore l hwf, lexStringProgramData_restore l hwf,
   lexArbitraryBlock_restore l, lexProgramExpression_restore l hwf,
   fun h42 => lexProgramHeader_restore_compound l h42,
   fun h42 => lexProgramHeader_star_state l h42⟩

theorem lexer_mismatch_restores_witness :
    ((lexColon ⟨[63], 0⟩).2.1 = 0 → (lexColon ⟨[63], 0⟩).2.2 = ⟨[63], 0⟩) ∧
      (lexColon ⟨[63], 0⟩).2.1 = 0 :=
  ⟨(lexer_mismatch_restores ⟨[63], 0⟩ (by decide)).2.2.2.2.1, by decide⟩

/-- C7 counterexample: `lexProgramHeader` on a bare `*` returns consumed
length 0 yet leaves the cursor at position 1, one byte past its entry
position 0 — the mismatch does not restore the cursor. -/
theorem lexProgramHeader_bare_star_moves_cursor :
    (lexProgramHeader ⟨[42], 0⟩).2.1 = 0 ∧ (lexProgramHeader ⟨[42], 0⟩).2.2.pos = 1 :=
  ⟨rfl, rfl⟩

theorem countNL_append (a b : List OutEvent) :
    countNL (a ++ b) = countNL a + countNL b := by
  induction a with
  | nil => simp [countNL]
  | cons x t ih =>
    cases x <;> simp [countNL, ih] <;> omega

theorem resultEmit_countNL (r : PRun) (p : List Nat) :
    countNL (resultEmit r p).trace = countNL r.trace := by
  simp only [resultEmit]
  split <;> simp [countNL_append, countNL]

theorem resultEmit_calls (r : PRun) (p : List Nat) :
    (resultEmit r p).calls = r.calls := by
  simp only [resultEmit]
  split <;> rfl

theorem resultEmit_firstOutput (r : PRun) (p : List Nat) :
    (resultEmit r p).ctx.firstOutput = false := by
  simp only [resultEmit]

theorem runActs_facts (acts : List HAct) : ∀ r : PRun,
    countNL (runActs r acts).trace = countNL r.trace ∧
    (runActs r acts).calls = r.calls ∧
    (r.ctx.firstOutput = false → (runActs r acts).ctx.firstOutput = false) := by
  induction acts with
  | nil => exact fun r => ⟨rfl, rfl, fun h => h⟩
  | cons a t ih =>
    intro r
    simp only [runActs, List.foldl_cons] at ih ⊢
    cases a with
    | result p =>
      obtain ⟨h1, h2, h3⟩ := ih (resultEmit r p)
      exact ⟨by rw [h1, resultEmit_countNL], by rw [h2, resultEmit_calls],
        fun _ => h3 (resultEmit_firstOutput r p)⟩
    | errPush code =>
      obtain ⟨h1, h2, h3⟩ := ih { r with ctx := errorPushCtx r.ctx code }
      exact ⟨h1, h2, fun h => h3 h⟩

theorem errorPushCtx_firstOutput (c : GoCtx) (code : Int) :
    (errorPushCtx c code).firstOutput = c.firstOutput := rfl

theorem runActs_countNL (r : PRun) (acts : List HAct) :
    countNL (runActs r acts).trace = countNL r.trace :=
  (runActs_facts acts r).1

theorem runActs_calls (r : PRun) (acts : List HAct) :
    (runActs r acts).calls = r.calls :=
  (runActs_facts acts r).2.1

theorem runActs_latch (r : PRun) (acts : List HAct)
    (h : r.ctx.firstOutput = false) : (runActs r acts).ctx.firstOutput = false :=
  (runActs_facts acts r).2.2 h

theorem execCmd_countNL (r : PRun) (hs p : List Nat) (c : GoCommand) :
    countNL (execCmd r hs p c).trace = countNL r.trace := by
  simp only [execCmd]
  split
  · rw [runActs_countNL]
  · split
    · rw [runActs_countNL]
    · dsimp only
      rw [runActs_countNL]

theorem execCmd_calls (r : PRun) (hs p : List Nat) (c : GoCommand) :
    (execCmd r hs p c).calls = r.calls ++ [⟨hs, p⟩] := by
  simp only [execCmd]
  split
  · rw [runActs_calls]
  · split
    · rw [runActs_calls]
    · dsimp only
      rw [runActs_calls]

theorem execCmd_latch (r : PRun) (hs p : List Nat) (c : GoCommand)
    (h : r.ctx.firstOutput = false) : (execCmd r hs p c).ctx.firstOutput = false := by
  simp only [execCmd]
  split
  · exact runActs_latch _ _ h
  · split
    · exact runActs_latch _ _ h
    · dsimp only
      rw [errorPushCtx_firstOutput]
      exact runActs_latch _ _ h

theorem endNewline_fO (r : PRun) :
    (endNewline r).ctx.firstOutput = r.ctx.firstOutput := by
  simp only [endNewline]
  split <;> rfl

theorem endNewline_calls (r : PRun) : (endNewline r).calls = r.calls := by
  simp only [endNewline]
  split <;> rfl

theorem endNewline_of_false (r : PRun) (h : r.ctx.firstOutput = false) :
    endNewline r = { r with trace := r.trace ++ [OutEvent.newline] } := by
  simp [endNewline, h]

theorem endNewline_of_true (r : PRun) (h : r.ctx.firstOutput = true) :
    endNewline r = r := by
  simp [endNewline, h]

/-- C2 (amended): the newline write sits inside the per-command loop, so once
any `Result*` output has happened in a `Parse` call (`firstOutput` false),
every further dispatched command appends exactly one newline event — one per
COMMAND, not one per line; and as long as no output at all has happened, no
newline is written. -/
theorem parse_newline_per_command (cmds : List GoCommand) (fuel : Nat) :
    ∀ (l : LexState) (prev : List Nat) (r : PRun),
      (r.ctx.firstOutput = false →
        (parseLoop cmds fuel l prev r).1.ctx.firstOutput = false ∧
        countNL (parseLoop cmds fuel l prev r).1.trace + r.calls.length =
          countNL r.trace + (parseLoop cmds fuel l prev r).1.calls.length) ∧
      ((parseLoop cmds fuel l prev r).1.ctx.firstOutput = true →
        countNL (parseLoop cmds fuel l prev r).1.trace = countNL r.trace) := by
  induction fuel with
  | zero => exact fun l prev r => ⟨fun h => ⟨h, rfl⟩, fun _ => rfl⟩
  | succ fuel ih =>
    intro l prev r
    rw [parseLoop]
    split
    · exact ⟨fun h => ⟨h, rfl⟩, fun _ => rfl⟩
    · dsimp only
      split
      · exact ⟨fun h => ⟨h, rfl⟩, fun _ => rfl⟩
      · split
        · exact ih _ _ r
        · split
          · exact ⟨fun h => ⟨h, rfl⟩, fun _ => rfl⟩
          · split
            · exact ⟨fun h => ⟨h, rfl⟩, fun _ => rfl⟩
            next cmd hfind =>
              generalize hh : composeCompoundCommand prev
                (lexProgramHeader (lexWhitespace l).2.2).1.data = hdr
              generalize hdp : dispatchParams
                (lexProgramHeader (lexWhitespace l).2.2).2.2 = dp
              generalize hts : termStep dp.2 hdr = ts
              refine ⟨fun hf => ?_, fun ht => ?_⟩
              · have hexf : (execCmd r hdr dp.1 cmd).ctx.firstOutput = false :=
                  execCmd_latch _ _ _ _ hf
                obtain ⟨ih1, ih2⟩ := (ih ts.1 ts.2 (endNewline (execCmd r hdr dp.1 cmd))).1
                  (by rw [endNewline_fO]; exact hexf)
                refine ⟨ih1, ?_⟩
                have hc : (endNewline (execCmd r hdr dp.1 cmd)).calls.length =
                    r.calls.length + 1 := by
                  rw [endNewline_calls, execCmd_calls]
                  simp
                have ht2 : countNL (endNewline (execCmd r hdr dp.1 cmd)).trace =
                    countNL r.trace + 1 := by
                  rw [endNewline_of_false _ hexf]
                  dsimp only
                  rw [countNL_append, execCmd_countNL]
                  rfl
                omega
              · by_cases hfo : (endNewline (execCmd r hdr dp.1 cmd)).ctx.firstOutput = false
                · have hA := ((ih ts.1 ts.2 (endNewline (execCmd r hdr dp.1 cmd))).1 hfo).1
                  rw [hA] at ht
                  cases ht
                · have hfo2 : (endNewline (execCmd r hdr dp.1 cmd)).ctx.firstOutput = true := by
                    cases hx : (endNewline (execCmd r hdr dp.1 cmd)).ctx.firstOutput
                    · exact absurd hx hfo
                    · rfl
                  have hexfo : (execCmd r hdr dp.1 cmd).ctx.firstOutput = true := by
                    rw [endNewline_fO] at hfo2
                    exact hfo2
                  have hB := (ih ts.1 ts.2 (endNewline (execCmd r hdr dp.1 cmd))).2 ht
                  rw [hB, endNewline_of_true _ hexfo, execCmd_countNL]

theorem parse_newline_per_command_witness :
    (parseLoop [] 1 ⟨[], 0⟩ []
      ⟨⟨freshQ, [], false, 0, false⟩, [], []⟩).1.ctx.firstOutput = false :=
  ((parse_newline_per_command [] 1 ⟨[], 0⟩ []
    ⟨⟨freshQ, [], false, 0, false⟩, [], []⟩).1 rfl).1

/-- C2 counterexample: one input line holding two semicolon-separated query
commands, both of which call `Result*`, produces TWO newline events — one
written after each command iteration — not the single trailing newline per
line that the claim asserts. -/
theorem parse_two_commands_two_newlines :
    countNL (parseGo cmdsAB freshCtx (bytes ("A? 1;B? 2\x0a"))).1.trace = 2 ∧
      (parseGo cmdsAB freshCtx (bytes ("A? 1;B? 2\x0a"))).1.calls.length = 2 := by
  refine ⟨?_, ?_⟩ <;>
    simp [parseGo, parseLoop, dispatchParams, execCmd, termStep, endNewline, countNL,
      bytes, cmdsAB, freshCtx, hEcho, lexWhitespace, lexNewLine, lexProgramHeader,
      headerNodes, nodeEnd, advanceWhile, LexState.peek, LexState.isEOS,
      LexState.advance, LexState.length, LexState.slice, lexSemicolon,
      composeCompoundCommand, findCommand, matchCommand, matchCommandParts, matchParts,
      matchPattern, splitColon, dropLeadingEmpty, trimSuffixQ, indexOfB, toUpperB,
      upperB, shortLen, isLowerB, isAlphaB, isDigitB, isWhitespaceB, runActs,
      resultEmit, errorPushCtx, unknownTok, freshQ, pushQ, growCap, List.takeWhile,
      List.findIdx, List.findIdx.go]

theorem advanceWhile_slice_sat (p : Nat → Bool) (l : LexState) (b : Nat)
    (hb : b ∈ (advanceWhile p l).slice l.pos (advanceWhile p l).pos) : p b = true := by
  unfold LexState.slice at hb
  rw [advanceWhile_buffer] at hb
  have hm : (advanceWhile p l).pos - l.pos ≤ ((l.buffer.drop l.pos).takeWhile p).length := by
    simp only [advanceWhile, LexState.advance, LexState.length]
    omega
  have hsplit : l.buffer.drop l.pos =
      (l.buffer.drop l.pos).takeWhile p ++ (l.buffer.drop l.pos).dropWhile p :=
    Eq.symm (List.takeWhile_append_dropWhile p (l.buffer.drop l.pos))
  rw [hsplit, List.take_append_of_le_length hm] at hb
  exact List.mem_takeWhile_imp (List.mem_of_mem_take hb)

theorem dispatchParams_no_stop (l : LexState) (b : Nat)
    (hb : b ∈ (dispatchParams l).1) : ¬(b = 59 ∨ b = 10 ∨ b = 13) := by
  simp only [dispatchParams] at hb
  have hp := advanceWhile_slice_sat (fun c => !(c = 59 || c = 10 || c = 13))
    (lexWhitespace l).2.2 b hb
  simp only [Bool.not_eq_true', Bool.or_eq_false_iff, decide_eq_false_iff_not] at hp
  tauto

/-- C10: every parameter span recorded for a handler invocation by the
`Parse` loop stops at the first `;`, `\n` or `\r` byte — even inside what the
wire format would treat as quoted-string or arbitrary-block data — so the
byte view handed to the parameter extractors never contains a `;`, `\n` or
`\r` byte. -/
theorem params_never_contain_terminators (cmds : List GoCommand) (fuel : Nat) :
    ∀ (l : LexState) (prev : List Nat) (r : PRun) (inv : Invocation),
      inv ∈ (parseLoop cmds fuel l prev r).1.calls →
      inv ∈ r.calls ∨ ∀ b ∈ inv.params, ¬(b = 59 ∨ b = 10 ∨ b = 13) := by
  induction fuel with
  | zero => exact fun l prev r inv h => Or.inl h
  | succ fuel ih =>
    intro l prev r inv
    rw [parseLoop]
    split
    · exact fun h => Or.inl h
    · dsimp only
      split
      · exact fun h => Or.inl h
      · split
        · exact ih _ _ r inv
        · split
          · exact fun h => Or.inl h
          · split
            · exact fun h => Or.inl h
            next cmd hfind =>
              generalize hh : composeCompoundCommand prev
                (lexProgramHeader (lexWhitespace l).2.2).1.data = hdr
              generalize hdp : dispatchParams
                (lexProgramHeader (lexWhitespace l).2.2).2.2 = dp
              generalize hts : termStep dp.2 hdr = ts
              intro hmem
              rcases ih ts.1 ts.2 (endNewline (execCmd r hdr dp.1 cmd)) inv hmem with h1 | h1
              · rw [endNewline_calls, execCmd_calls] at h1
                rcases List.mem_append.mp h1 with h2 | h2
                · exact Or.inl h2
                · refine Or.inr ?_
                  have hinv : inv = ⟨hdr, dp.1⟩ := by
                    simpa using h2
                  intro b hb
                  rw [hinv] at hb
                  exact dispatchParams_no_stop _ b (by rw [hdp]; exact hb)
              · exact Or.inr h1

theorem params_never_contain_terminators_witness :
    (⟨bytes ("A?"), [49]⟩ : Invocation) ∈
        (⟨freshCtx, [], []⟩ : PRun).calls ∨
      ∀ b ∈ ((⟨bytes ("A?"), [49]⟩ : Invocation)).params, ¬(b = 59 ∨ b = 10 ∨ b = 13) :=
  params_never_contain_terminators cmdsAB 7 ⟨bytes ("A? 1\x0a"), 0⟩ []
    ⟨freshCtx, [], []⟩ ⟨bytes ("A?"), [49]⟩
    (by
      simp [parseLoop, dispatchParams, execCmd, termStep, endNewline,
        bytes, cmdsAB, freshCtx, hEcho, lexWhitespace, lexNewLine, lexProgramHeader,
        headerNodes, nodeEnd, advanceWhile, LexState.peek, LexState.isEOS,
        LexState.advance, LexState.length, LexState.slice, lexSemicolon,
        composeCompoundCommand, findCommand, matchCommand, matchCommandParts, matchParts,
        matchPattern, splitColon, dropLeadingEmpty, trimSuffixQ, indexOfB, toUpperB,
        upperB, shortLen, isLowerB, isAlphaB, isDigitB, isWhitespaceB, runActs,
        resultEmit, errorPushCtx, unknownTok, freshQ, pushQ, growCap, List.takeWhile,
        List.findIdx, List.findIdx.go])

theorem errorPushCtx_notified (c : GoCtx) (code : Int) :
    (errorPushCtx c code).notified = c.notified ++ [code] := rfl

theorem parseLoop_err_notified (cmds : List GoCommand) (fuel : Nat) :
    ∀ (l : LexState) (prev : List Nat) (r : PRun),
      ((parseLoop cmds fuel l prev r).2 = some ParseErr.invalidCommand →
        (parseLoop cmds fuel l prev r).1.ctx.notified.getLast? = some (-100)) ∧
      ((parseLoop cmds fuel l prev r).2 = some ParseErr.undefinedHeader →
        (parseLoop cmds fuel l prev r).1.ctx.notified.getLast? = some (-113)) := by
  induction fuel with
  | zero =>
    intro l prev r
    exact ⟨fun h => by simp [parseLoop] at h, fun h => by simp [parseLoop] at h⟩
  | succ fuel ih =>
    intro l prev r
    rw [parseLoop]
    split
    · exact ⟨fun h => by simp at h, fun h => by simp at h⟩
    · dsimp only
      split
      · exact ⟨fun h => by simp at h, fun h => by simp at h⟩
      · split
        · exact ih _ _ r
        · split
          · refine ⟨fun _ => ?_, fun h => by simp at h⟩
            show (errorPushCtx r.ctx (-100)).notified.getLast? = some (-100)
            rw [errorPushCtx_notified]
            exact List.getLast?_concat _
          · split
            · refine ⟨fun h => by simp at h, fun _ => ?_⟩
              show (errorPushCtx r.ctx (-113)).notified.getLast? = some (-113)
              rw [errorPushCtx_notified]
              exact List.getLast?_concat _
            next cmd hfind =>
              exact ih _ _ _

theorem parseGo_err_notified (cmds : List GoCommand) (ctx0 : GoCtx) (data : List Nat) :
    ((parseGo cmds ctx0 data).2 = some ParseErr.invalidCommand →
      (parseGo cmds ctx0 data).1.ctx.notified.getLast? = some (-100)) ∧
    ((parseGo cmds ctx0 data).2 = some ParseErr.undefinedHeader →
      (parseGo cmds ctx0 data).1.ctx.notified.getLast? = some (-113)) := by
  unfold parseGo
  exact parseLoop_err_notified cmds _ _ _ _

theorem inputLoop_err_notified (cmds : List GoCommand) :
    ∀ (data : List Nat) (s : InputState) (acc : List OutEvent),
      ((inputLoop cmds s data acc).2.2 = some InputErr.overflow →
        (inputLoop cmds s data acc).1.ctx.notified.getLast? = some (-350)) ∧
      ((inputLoop cmds s data acc).2.2 = some (InputErr.parse ParseErr.invalidCommand) →
        (inputLoop cmds s data acc).1.ctx.notified.getLast? = some (-100)) ∧
      ((inputLoop cmds s data acc).2.2 = some (InputErr.parse ParseErr.undefinedHeader) →
        (inputLoop cmds s data acc).1.ctx.notified.getLast? = some (-113)) := by
  intro data
  induction data with
  | nil =>
    intro s acc
    exact ⟨fun h => by simp [inputLoop] at h, fun h => by simp [inputLoop] at h,
      fun h => by simp [inputLoop] at h⟩
  | cons b rest ih =>
    intro s acc
    rw [inputLoop]
    split
    · refine ⟨fun _ => ?_, fun h => by simp at h, fun h => by simp at h⟩
      show (errorPushCtx s.ctx (-350)).notified.getLast? = some (-350)
      rw [errorPushCtx_notified]
      exact List.getLast?_concat _
    · dsimp only
      split
      · split
        next e2 heq =>
          refine ⟨fun h => by simp at h, fun h => ?_, fun h => ?_⟩
          · have he2 : e2 = ParseErr.invalidCommand := by simpa using h
            exact (parseGo_err_notified cmds s.ctx (s.buf ++ [b])).1 (by rw [heq, he2])
          · have he2 : e2 = ParseErr.undefinedHeader := by simpa using h
            exact (parseGo_err_notified cmds s.ctx (s.buf ++ [b])).2 (by rw [heq, he2])
        next heq =>
          exact ih _ _
      · exact ih _ _

/-- C9 (amended): `Input` does NOT swallow in-line conditions uniformly: the
two `Parse` error returns — invalid command (`-100`) and undefined header
(`-113`) — propagate out of `Input` as hard errors, as does input-buffer
overflow (`-350`); in every such case the code has also been pushed onto the
error queue and handed to the notify callback (whose call list `notified`
records), so the queue/notify delivery part of the claim holds, but the
claimed success return does not. -/
theorem input_error_returns (cmds : List GoCommand) (s : InputState) (data : List Nat) :
    ((inputGo cmds s data).2.2 = some InputErr.overflow →
      (inputGo cmds s data).1.ctx.notified.getLast? = some (-350)) ∧
    ((inputGo cmds s data).2.2 = some (InputErr.parse ParseErr.invalidCommand) →
      (inputGo cmds s data).1.ctx.notified.getLast? = some (-100)) ∧
    ((inputGo cmds s data).2.2 = some (InputErr.parse ParseErr.undefinedHeader) →
      (inputGo cmds s data).1.ctx.notified.getLast? = some (-113)) := by
  unfold inputGo
  split
  · split
    · dsimp only
      refine ⟨fun h => ?_, fun h => ?_, fun h => ?_⟩
      · rcases hx : (parseGo cmds s.ctx s.buf).2 with _ | e2
        · rw [hx] at h
          simp at h
        · rw [hx] at h
          simp at h
      · rcases hx : (parseGo cmds s.ctx s.buf).2 with _ | e2
        · rw [hx] at h
          simp at h
        · rw [hx] at h
          simp at h
          exact (parseGo_err_notified cmds s.ctx s.buf).1 (by rw [hx, h])
      · rcases hx : (parseGo cmds s.ctx s.buf).2 with _ | e2
        · rw [hx] at h
          simp at h
        · rw [hx] at h
          simp at h
          exact (parseGo_err_notified cmds s.ctx s.buf).2 (by rw [hx, h])
    · exact ⟨fun h => by simp at h, fun h => by simp at h, fun h => by simp at h⟩
  · exact (inputLoop_err_notified cmds data s []).imp id id

/-- C9 counterexample: on the line `BOGUS\n`, whose header is not in the
command table, `Input` returns the in-line condition as a hard error — the
undefined-header parse error — rather than returning success; `-113` is also
pushed and notified, as the queue/notify part of the claim says. -/
theorem input_returns_undefined_header_error :
    (inputGo cmdsAB (freshInputState 64) (bytes ("BOGUS\x0a"))).2.2 =
        some (InputErr.parse ParseErr.undefinedHeader) ∧
      (inputGo cmdsAB (freshInputState 64) (bytes ("BOGUS\x0a"))).1.ctx.notified =
        [-113] := by
  refine ⟨?_, ?_⟩ <;>
    simp [inputGo, inputLoop, parseGo, parseLoop, dispatchParams, execCmd, termStep,
      endNewline, freshInputState, bytes, cmdsAB, hEcho, lexWhitespace, lexNewLine,
      lexProgramHeader, headerNodes, nodeEnd, advanceWhile, LexState.peek,
      LexState.isEOS, LexState.advance, LexState.length, LexState.slice, lexSemicolon,
      composeCompoundCommand, findCommand, matchCommand, matchCommandParts, matchParts,
      matchPattern, splitColon, dropLeadingEmpty, trimSuffixQ, indexOfB, toUpperB,
      upperB, shortLen, isLowerB, isAlphaB, isDigitB, isWhitespaceB, runActs,
      resultEmit, errorPushCtx, unknownTok, freshQ, pushQ, growCap, List.takeWhile,
      List.findIdx, List.findIdx.go]

theorem input_error_returns_witness :
    (inputGo cmdsAB (freshInputState 64)
      (bytes ("BOGUS\x0a"))).1.ctx.notified.getLast? = some (-113) :=
  (input_error_returns cmdsAB (freshInputState 64) (bytes ("BOGUS\x0a"))).2.2
    (by
      simp [inputGo, inputLoop, parseGo, parseLoop, dispatchParams, execCmd, termStep,
        endNewline, freshInputState, bytes, cmdsAB, hEcho, lexWhitespace, lexNewLine,
        lexProgramHeader, headerNodes, nodeEnd, advanceWhile, LexState.peek,
        LexState.isEOS, LexState.advance, LexState.length, LexState.slice, lexSemicolon,
        composeCompoundCommand, findCommand, matchCommand, matchCommandParts, matchParts,
        matchPattern, splitColon, dropLeadingEmpty, trimSuffixQ, indexOfB, toUpperB,
        upperB, shortLen, isLowerB, isAlphaB, isDigitB, isWhitespaceB, runActs,
        resultEmit, errorPushCtx, unknownTok, freshQ, pushQ, growCap, List.takeWhile,
        List.findIdx, List.findIdx.go])
